import Mathlib

/-!
Verification of the testkeeper-ai core algorithms against their
natural-language specification.

The development shallowly embeds the two core source modules:

* `src/utils/openapi-diff.js` — `diffOpenAPISpecs`, `parseSpec`,
  `compareParameters`, `compareResponses`;
* `src/scripts/suggest-updates.js` — `findRelevantTestFiles`,
  `extractApiEndpoints`, `readTestFiles` (and its truncation policy).

Modelling conventions:

* Parsed specs are modelled as typed trees.  JavaScript objects become
  association lists in insertion order (`for (k in o)` iterates keys in
  insertion order for the string keys appearing here); `JSON.parse` never
  produces an object with duplicate keys, so key lists of parsed objects
  are duplicate-free, and lemmas that need this state it explicitly.
* A possibly-absent boolean field (`required`) is an `Option Bool`;
  JavaScript's `x !== y` on such fields is `Option.Bool` disequality and
  `x || false` is `Option.getD false`.
* The external `JSON.parse` / `yaml.load` library calls are not
  re-implemented; they are parameters `(jsonParse yamlParse : String →
  Option Spec)` of the embedded `parseSpec`, with `none` standing for a
  thrown parse error.  The repository's own code (the try/catch fallback
  structure and everything downstream) is embedded faithfully.
* Fallible operations (file reads) are `Option`-valued; a `none` content
  models a thrown `readFileSync`, which the source catches and skips.
-/

/-- A single entry of an OpenAPI `parameters` array, as accessed by the
source: `name`, `in` (called `loc` here; `in` is reserved), and the
possibly-absent boolean `required`. -/
structure Param where
  name : String
  loc : String
  required : Option Bool
deriving DecidableEq

/-- One element of the `details` list of a `parameter_changes` record,
mirroring the object shapes pushed by `compareParameters`. -/
inductive ParamDelta where
  | new_parameter (name loc : String)
  | removed_parameter (name loc : String)
  | requirement_changed (name loc : String) (f t : Bool)
deriving DecidableEq

/-- One element of the `details` list of a `response_changes` record,
mirroring the object shapes pushed by `compareResponses`. -/
inductive RespDelta where
  | new_response_code (code : String)
  | removed_response_code (code : String)
deriving DecidableEq

/-- A change record as pushed by `diffOpenAPISpecs` (the `type` field of
the JS object becomes the constructor). -/
inductive Change where
  | new_endpoint (path : String)
  | removed_endpoint (path : String)
  | new_method (path method : String)
  | removed_method (path method : String)
  | parameter_changes (path method : String) (details : List ParamDelta)
  | response_changes (path method : String) (details : List RespDelta)
deriving DecidableEq

/-- The method descriptor accessed by the diff: its `parameters` array
(defaulted to `[]` by the source when absent) and the key set of its
`responses` object (defaulted to `{}`); the source only tests presence of
a response code, never its value. -/
structure Operation where
  parameters : List Param
  responses : List String
deriving DecidableEq

/-- A path item: the object `spec.paths[path]`, an association list from
method key to descriptor in insertion order. -/
abbrev PathItem := List (String × Operation)

/-- A parsed spec's `paths` object: association list from path string to
path item in insertion order (an absent `paths` field is the empty list,
matching the source's `spec.paths || {}` defaulting). -/
abbrev Spec := List (String × PathItem)

/-- Key lookup on a JS-object-as-association-list: the value at the first
matching key (`o[k]`, which for the duplicate-free key lists produced by
JSON parsing is the unique match). -/
def getKey {α : Type} (o : List (String × α)) (k : String) : Option α :=
  (o.find? (fun e => e.1 == k)).map (fun e => e.2)

/-- The predicate of the source's `oldParams.find(p => p.name ===
newParam.name && p.in === newParam.in)`. -/
def paramKeyMatch (np : Param) (p : Param) : Bool :=
  p.name == np.name && p.loc == np.loc

/-- Embedding of `compareParameters` from `src/utils/openapi-diff.js`:
a first pass over `newParams` emitting `new_parameter` (pair absent from
`oldParams`) or `requirement_changed` (pair present, raw `required`
values differ, `from`/`to` defaulted with `|| false`), then a second pass
over `oldParams` emitting `removed_parameter` for one-way presence. -/
def compareParameters (oldParams newParams : List Param) : List ParamDelta :=
  (newParams.flatMap fun np =>
    match oldParams.find? (paramKeyMatch np) with
    | none => [ParamDelta.new_parameter np.name np.loc]
    | some op =>
      if op.required ≠ np.required then
        [ParamDelta.requirement_changed np.name np.loc
          (op.required.getD false) (np.required.getD false)]
      else [])
  ++ (oldParams.flatMap fun op =>
    match newParams.find? (paramKeyMatch op) with
    | none => [ParamDelta.removed_parameter op.name op.loc]
    | some _ => [])

/-- Embedding of `compareResponses`: one-way key presence in each
direction (JS enumerates numeric-looking response codes in ascending
numeric order, but no claim depends on the order of response deltas). -/
def compareResponses (oldResponses newResponses : List String) : List RespDelta :=
  (newResponses.flatMap fun c =>
    if c ∈ oldResponses then [] else [RespDelta.new_response_code c])
  ++ (oldResponses.flatMap fun c =>
    if c ∈ newResponses then [] else [RespDelta.removed_response_code c])

/-- The per-method body of the forward pass: a `parameter_changes` record
if the parameter delta list is non-empty, then a `response_changes`
record if the response delta list is non-empty. -/
def methodChanges (p m : String) (oldOp newOp : Operation) : List Change :=
  (if compareParameters oldOp.parameters newOp.parameters = [] then []
   else [Change.parameter_changes p m
     (compareParameters oldOp.parameters newOp.parameters)])
  ++ (if compareResponses oldOp.responses newOp.responses = [] then []
      else [Change.response_changes p m
        (compareResponses oldOp.responses newOp.responses)])

/-- The inner loop of the forward pass over the methods of a path present
in both specs. -/
def forwardItem (p : String) (oldItem newItem : PathItem) : List Change :=
  newItem.flatMap fun me =>
    match getKey oldItem me.1 with
    | none => [Change.new_method p me.1]
    | some oldOp => methodChanges p me.1 oldOp me.2

/-- The forward pass of `diffOpenAPISpecs`: over every path in the new
spec, `new_endpoint` when absent from the old one, otherwise the method
comparison. -/
def forwardPass (oldS newS : Spec) : List Change :=
  newS.flatMap fun pe =>
    match getKey oldS pe.1 with
    | none => [Change.new_endpoint pe.1]
    | some oldItem => forwardItem pe.1 oldItem pe.2

/-- The inner loop of the backward pass over the methods of a path
present in both specs. -/
def backwardItem (p : String) (newItem oldItem : PathItem) : List Change :=
  oldItem.flatMap fun me =>
    match getKey newItem me.1 with
    | none => [Change.removed_method p me.1]
    | some _ => []

/-- The backward pass of `diffOpenAPISpecs`: over every path in the old
spec, `removed_endpoint` when absent from the new one, otherwise
`removed_method` for each one-way-present method key. -/
def backwardPass (oldS newS : Spec) : List Change :=
  oldS.flatMap fun pe =>
    match getKey newS pe.1 with
    | none => [Change.removed_endpoint pe.1]
    | some newItem => backwardItem pe.1 newItem pe.2

/-- The structural diff on two parsed specs: the forward pass followed by
the backward pass, exactly as the two loops of `diffOpenAPISpecs`. -/
def diffSpecs (oldS newS : Spec) : List Change :=
  forwardPass oldS newS ++ backwardPass oldS newS

/-- Embedding of `parseSpec`: try the JSON decoder, fall back to the YAML
decoder, `none` when both fail (the source's thrown `Error`). -/
def parseSpec (jsonParse yamlParse : String → Option Spec) (s : String) :
    Option Spec :=
  match jsonParse s with
  | some v => some v
  | none => yamlParse s

/-- Embedding of `diffOpenAPISpecs` on raw input strings: parse both
inputs and diff; any failure inside the `try` block (in particular a
double parse failure of either input) is caught and yields `[]`. -/
def diffOpenAPISpecs (jsonParse yamlParse : String → Option Spec)
    (oldSpecStr newSpecStr : String) : List Change :=
  match parseSpec jsonParse yamlParse oldSpecStr,
        parseSpec jsonParse yamlParse newSpecStr with
  | some oldSpec, some newSpec => diffSpecs oldSpec newSpec
  | _, _ => []

/-! Concrete fixtures used by counterexamples and witnesses. -/

/-- An operation with no parameters and no responses. -/
def emptyOp : Operation := ⟨[], []⟩

/-- A spec whose single operation carries a duplicated `(name, location)`
parameter pair with differing `required` flags.  This is valid JSON (the
`parameters` field is an array), yet OpenAPI-invalid; the source never
guards against it. -/
def dupSpec : Spec :=
  [("/a", [("get", ⟨[⟨"p", "query", some true⟩, ⟨"p", "query", some false⟩], []⟩)])]

/-- A JSON decoder stub mapping the input string `"X"` to `dupSpec`. -/
def jsonParseDup : String → Option Spec :=
  fun s => if s = "X" then some dupSpec else none

/-- A decoder that always fails. -/
def parseNone : String → Option Spec := fun _ => none

/-- C6: for every pair of input strings, `diffOpenAPISpecs` never raises an
exception past its own boundary: if either input fails to parse under both
encodings (its `parseSpec` yields `none`), it returns the empty change list
rather than throwing.  (The embedding is a total function, mirroring the
source's all-enclosing try/catch.) -/
theorem diff_parse_failure_yields_empty
    (jsonParse yamlParse : String → Option Spec) (oldStr newStr : String)
    (h : parseSpec jsonParse yamlParse oldStr = none ∨
         parseSpec jsonParse yamlParse newStr = none) :
    diffOpenAPISpecs jsonParse yamlParse oldStr newStr = [] := by
  rcases h with h | h
  · simp only [diffOpenAPISpecs, h]
  · simp only [diffOpenAPISpecs, h]
    cases parseSpec jsonParse yamlParse oldStr <;> rfl

/-- Witness for C6 at concrete decoders that fail on both encodings. -/
theorem diff_parse_failure_yields_empty_witness :
    parseSpec parseNone parseNone "not json" = none ∧
    diffOpenAPISpecs parseNone parseNone "not json" "also bad" = [] :=
  ⟨rfl, diff_parse_failure_yields_empty parseNone parseNone "not json" "also bad"
    (Or.inl rfl)⟩

/-- C5 counterexample: the string `"X"` parses successfully (under the JSON
encoding stub), yet `diff(X, X)` is non-empty — the duplicated
`(name, location)` parameter pair makes the source's `find` hit the first
copy while iterating the second, emitting a spurious
`parameter_requirement_changed` delta. -/
theorem diff_self_not_empty_counterexample :
    parseSpec jsonParseDup parseNone "X" = some dupSpec ∧
    diffOpenAPISpecs jsonParseDup parseNone "X" "X" =
      [Change.parameter_changes "/a" "get"
        [ParamDelta.requirement_changed "p" "query" true false]] ∧
    diffOpenAPISpecs jsonParseDup parseNone "X" "X" ≠ [] := by
  refine ⟨rfl, by decide, by decide⟩

/-- The parameter list of C3's counterexample: `required` absent. -/
def absentReqParams : List Param := [⟨"expand", "query", none⟩]

/-- The parameter list of C3's counterexample: `required` explicitly
`false`. -/
def falseReqParams : List Param := [⟨"expand", "query", some false⟩]

/-- C3 counterexample: a parameter whose `required` flag is absent in the
old spec and explicitly `false` in the new one *does* produce a
`requirement_changed` delta (with both defaulted flags equal to `false`),
because the source compares the raw values with `!==` before applying the
`|| false` defaulting — refuting the claimed "no delta" behaviour and the
claimed iff over defaulted flags. -/
theorem requirement_changed_despite_equal_defaults :
    compareParameters absentReqParams falseReqParams =
      [ParamDelta.requirement_changed "expand" "query" false false] ∧
    (none : Option Bool).getD false = (some false).getD false := by
  exact ⟨by decide, rfl⟩

/-! Lookup lemmas for the JS-object-as-association-list model. -/

/-- A successful key lookup comes from an entry of the list. -/
theorem getKey_eq_some_mem {α : Type} {o : List (String × α)} {k : String}
    {v : α} (h : getKey o k = some v) : (k, v) ∈ o := by
  unfold getKey at h
  cases hf : o.find? (fun e => e.1 == k) with
  | none => rw [hf] at h; cases h
  | some e =>
    rw [hf] at h
    obtain ⟨e1, e2⟩ := e
    have hmem := List.mem_of_find?_eq_some hf
    have hpred : e1 = k := by simpa using List.find?_some hf
    have hv : e2 = v := by simpa using h
    rw [← hpred, ← hv]; exact hmem

/-- Under duplicate-free keys, every entry is found by lookup. -/
theorem getKey_of_mem {α : Type} {o : List (String × α)} {k : String} {v : α}
    (hnd : (o.map Prod.fst).Nodup) (hm : (k, v) ∈ o) : getKey o k = some v := by
  have hsome : (o.find? (fun e => e.1 == k)).isSome := by
    rw [List.find?_isSome]
    exact ⟨(k, v), hm, by simp⟩
  obtain ⟨e, hfind⟩ := Option.isSome_iff_exists.mp hsome
  have he1 : e.1 = k := by simpa using List.find?_some hfind
  have hemem := List.mem_of_find?_eq_some hfind
  have heq : e = (k, v) :=
    List.inj_on_of_nodup_map hnd hemem hm (by simpa using he1)
  unfold getKey
  rw [hfind, heq]
  rfl

/-- A failing key lookup means no entry carries the key. -/
theorem getKey_eq_none_iff {α : Type} {o : List (String × α)} {k : String} :
    getKey o k = none ↔ ∀ v : α, (k, v) ∉ o := by
  unfold getKey
  rw [Option.map_eq_none', List.find?_eq_none]
  constructor
  · intro h v hv
    have := h (k, v) hv
    simp at this
  · intro h e he hpred
    obtain ⟨e1, e2⟩ := e
    have : e1 = k := by simpa using hpred
    subst this
    exact h e2 he

/-! Membership characterizations for the parameter and response delta
computations. -/

/-- The first-match parameter lookup by `(name, location)` pair, the form
the source's `find` predicate takes once the anchor parameter's fields
are fixed. -/
def pfind (ps : List Param) (n l : String) : Option Param :=
  ps.find? (fun q => q.name == n && q.loc == l)

theorem pfind_eq_paramKeyMatch (ps : List Param) (np : Param) :
    ps.find? (paramKeyMatch np) = pfind ps np.name np.loc := rfl

/-- A `new_parameter` delta is emitted exactly for a pair present in the
new list whose `(name, location)` lookup fails on the old list. -/
theorem new_parameter_mem_iff {po pn : List Param} {n l : String} :
    ParamDelta.new_parameter n l ∈ compareParameters po pn ↔
      ∃ q ∈ pn, q.name = n ∧ q.loc = l ∧ pfind po n l = none := by
  unfold compareParameters
  rw [List.mem_append]
  constructor
  · rintro (h | h) <;> rw [List.mem_flatMap] at h <;> obtain ⟨q, hq, hmem⟩ := h
    · split at hmem
      next hf =>
        rw [List.mem_singleton, ParamDelta.new_parameter.injEq] at hmem
        obtain ⟨hn, hl⟩ := hmem
        subst hn; subst hl
        rw [pfind_eq_paramKeyMatch] at hf
        exact ⟨q, hq, rfl, rfl, hf⟩
      next op hf =>
        split at hmem <;> simp at hmem
    · split at hmem <;> simp at hmem
  · rintro ⟨q, hq, hn, hl, hfind⟩
    left
    rw [List.mem_flatMap]
    refine ⟨q, hq, ?_⟩
    rw [pfind_eq_paramKeyMatch, hn, hl, hfind]
    simp

/-- A `removed_parameter` delta is emitted exactly for a pair present in
the old list whose `(name, location)` lookup fails on the new list. -/
theorem removed_parameter_mem_iff {po pn : List Param} {n l : String} :
    ParamDelta.removed_parameter n l ∈ compareParameters po pn ↔
      ∃ q ∈ po, q.name = n ∧ q.loc = l ∧ pfind pn n l = none := by
  unfold compareParameters
  rw [List.mem_append]
  constructor
  · rintro (h | h) <;> rw [List.mem_flatMap] at h <;> obtain ⟨q, hq, hmem⟩ := h
    · split at hmem
      next hf => simp at hmem
      next op hf => split at hmem <;> simp at hmem
    · split at hmem
      next hf =>
        rw [List.mem_singleton, ParamDelta.removed_parameter.injEq] at hmem
        obtain ⟨hn, hl⟩ := hmem
        subst hn; subst hl
        rw [pfind_eq_paramKeyMatch] at hf
        exact ⟨q, hq, rfl, rfl, hf⟩
      next op hf => simp at hmem
  · rintro ⟨q, hq, hn, hl, hfind⟩
    right
    rw [List.mem_flatMap]
    refine ⟨q, hq, ?_⟩
    rw [pfind_eq_paramKeyMatch, hn, hl, hfind]
    simp

/-- A `requirement_changed` delta is emitted exactly for a new-list pair
whose old-list lookup succeeds with a different raw `required` value; the
carried flags are the `|| false` defaults. -/
theorem requirement_changed_mem_iff {po pn : List Param} {n l : String}
    {f t : Bool} :
    ParamDelta.requirement_changed n l f t ∈ compareParameters po pn ↔
      ∃ q ∈ pn, q.name = n ∧ q.loc = l ∧
        ∃ op, pfind po n l = some op ∧ op.required ≠ q.required ∧
          f = op.required.getD false ∧ t = q.required.getD false := by
  unfold compareParameters
  rw [List.mem_append]
  constructor
  · rintro (h | h) <;> rw [List.mem_flatMap] at h <;> obtain ⟨q, hq, hmem⟩ := h
    · split at hmem
      next hf => simp at hmem
      next op hf =>
        split at hmem
        next hreq =>
          rw [List.mem_singleton, ParamDelta.requirement_changed.injEq] at hmem
          obtain ⟨hn, hl, hfv, htv⟩ := hmem
          subst hn; subst hl
          rw [pfind_eq_paramKeyMatch] at hf
          exact ⟨q, hq, rfl, rfl, op, hf, hreq, hfv, htv⟩
        next hreq => simp at hmem
    · split at hmem <;> simp at hmem
  · rintro ⟨q, hq, hn, hl, op, hfind, hreq, hfv, htv⟩
    left
    rw [List.mem_flatMap]
    refine ⟨q, hq, ?_⟩
    rw [pfind_eq_paramKeyMatch, hn, hl, hfind]
    simp [hreq, hfv, htv]

/-- A `new_response_code` delta is emitted exactly for one-way presence
of the code in the new key list. -/
theorem new_response_mem_iff {ro rn : List String} {c : String} :
    RespDelta.new_response_code c ∈ compareResponses ro rn ↔
      c ∈ rn ∧ c ∉ ro := by
  unfold compareResponses
  rw [List.mem_append]
  constructor
  · rintro (h | h) <;> rw [List.mem_flatMap] at h <;> obtain ⟨q, hq, hmem⟩ := h
    · split at hmem
      next hc => simp at hmem
      next hc =>
        rw [List.mem_singleton, RespDelta.new_response_code.injEq] at hmem
        subst hmem
        exact ⟨hq, hc⟩
    · split at hmem <;> simp at hmem
  · rintro ⟨hin, hout⟩
    left
    rw [List.mem_flatMap]
    exact ⟨c, hin, by simp [hout]⟩

/-- A `removed_response_code` delta is emitted exactly for one-way
presence of the code in the old key list. -/
theorem removed_response_mem_iff {ro rn : List String} {c : String} :
    RespDelta.removed_response_code c ∈ compareResponses ro rn ↔
      c ∈ ro ∧ c ∉ rn := by
  unfold compareResponses
  rw [List.mem_append]
  constructor
  · rintro (h | h) <;> rw [List.mem_flatMap] at h <;> obtain ⟨q, hq, hmem⟩ := h
    · split at hmem <;> simp at hmem
    · split at hmem
      next hc => simp at hmem
      next hc =>
        rw [List.mem_singleton, RespDelta.removed_response_code.injEq] at hmem
        subst hmem
        exact ⟨hq, hc⟩
  · rintro ⟨hin, hout⟩
    right
    rw [List.mem_flatMap]
    exact ⟨c, hin, by simp [hout]⟩

/-! Shape lemmas: which record kinds each pass can produce. -/

/-- `methodChanges` only produces `parameter_changes` and
`response_changes` records for its own path and method. -/
theorem methodChanges_shape {p m : String} {o1 o2 : Operation} {c : Change}
    (h : c ∈ methodChanges p m o1 o2) :
    (∃ ds, c = Change.parameter_changes p m ds ∧
      ds = compareParameters o1.parameters o2.parameters ∧ ds ≠ []) ∨
    (∃ ds, c = Change.response_changes p m ds ∧
      ds = compareResponses o1.responses o2.responses ∧ ds ≠ []) := by
  unfold methodChanges at h
  rw [List.mem_append] at h
  rcases h with h | h
  · split at h
    · simp at h
    · rw [List.mem_singleton] at h
      exact Or.inl ⟨_, h, rfl, by assumption⟩
  · split at h
    · simp at h
    · rw [List.mem_singleton] at h
      exact Or.inr ⟨_, h, rfl, by assumption⟩

/-- `forwardItem` only produces `new_method`, `parameter_changes` and
`response_changes` records for its own path. -/
theorem forwardItem_shape {p : String} {oi ni : PathItem} {c : Change}
    (h : c ∈ forwardItem p oi ni) :
    (∃ m, c = Change.new_method p m) ∨
    (∃ m ds, c = Change.parameter_changes p m ds) ∨
    (∃ m ds, c = Change.response_changes p m ds) := by
  unfold forwardItem at h
  rw [List.mem_flatMap] at h
  obtain ⟨me, hme, h⟩ := h
  split at h
  · rw [List.mem_singleton] at h
    exact Or.inl ⟨_, h⟩
  · rcases methodChanges_shape h with ⟨ds, rfl, _⟩ | ⟨ds, rfl, _⟩
    · exact Or.inr (Or.inl ⟨_, _, rfl⟩)
    · exact Or.inr (Or.inr ⟨_, _, rfl⟩)

/-- The forward pass never produces a `removed_endpoint` or
`removed_method` record. -/
theorem forwardPass_shape {o n : Spec} {c : Change} (h : c ∈ forwardPass o n) :
    (∃ p, c = Change.new_endpoint p) ∨ (∃ p m, c = Change.new_method p m) ∨
    (∃ p m ds, c = Change.parameter_changes p m ds) ∨
    (∃ p m ds, c = Change.response_changes p m ds) := by
  unfold forwardPass at h
  rw [List.mem_flatMap] at h
  obtain ⟨pe, hpe, h⟩ := h
  split at h
  · rw [List.mem_singleton] at h
    exact Or.inl ⟨_, h⟩
  · rcases forwardItem_shape h with ⟨m, rfl⟩ | ⟨m, ds, rfl⟩ | ⟨m, ds, rfl⟩
    · exact Or.inr (Or.inl ⟨_, _, rfl⟩)
    · exact Or.inr (Or.inr (Or.inl ⟨_, _, _, rfl⟩))
    · exact Or.inr (Or.inr (Or.inr ⟨_, _, _, rfl⟩))

/-- The backward pass only produces `removed_endpoint` and
`removed_method` records. -/
theorem backwardPass_shape {o n : Spec} {c : Change}
    (h : c ∈ backwardPass o n) :
    (∃ p, c = Change.removed_endpoint p) ∨
    (∃ p m, c = Change.removed_method p m) := by
  unfold backwardPass at h
  rw [List.mem_flatMap] at h
  obtain ⟨pe, hpe, h⟩ := h
  split at h
  · rw [List.mem_singleton] at h
    exact Or.inl ⟨_, h⟩
  · unfold backwardItem at h
    rw [List.mem_flatMap] at h
    obtain ⟨me, hme, h⟩ := h
    split at h
    · rw [List.mem_singleton] at h
      exact Or.inr ⟨_, _, h⟩
    · simp at h

/-! Membership characterizations for the diff on parsed specs. -/

/-- A `new_endpoint` record appears exactly for a path keying the new
spec whose lookup in the old spec fails. -/
theorem new_endpoint_mem_iff {o n : Spec} {p : String} :
    Change.new_endpoint p ∈ diffSpecs o n ↔
      (∃ it, (p, it) ∈ n) ∧ getKey o p = none := by
  unfold diffSpecs
  rw [List.mem_append]
  constructor
  · rintro (h | h)
    · unfold forwardPass at h
      rw [List.mem_flatMap] at h
      obtain ⟨⟨p1, it⟩, hpe, h⟩ := h
      split at h
      next hf =>
        rw [List.mem_singleton, Change.new_endpoint.injEq] at h
        subst h
        exact ⟨⟨it, hpe⟩, hf⟩
      next oi hf =>
        rcases forwardItem_shape h with ⟨m, h'⟩ | ⟨m, ds, h'⟩ | ⟨m, ds, h'⟩ <;>
          simp at h'
    · rcases backwardPass_shape h with ⟨q, h'⟩ | ⟨q, m, h'⟩ <;> simp at h'
  · rintro ⟨⟨it, hit⟩, hnone⟩
    left
    unfold forwardPass
    rw [List.mem_flatMap]
    refine ⟨(p, it), hit, ?_⟩
    show Change.new_endpoint p ∈ match getKey o p with
      | none => [Change.new_endpoint p]
      | some oldItem => forwardItem p oldItem it
    rw [hnone]
    simp

/-- A `removed_endpoint` record appears exactly for a path keying the old
spec whose lookup in the new spec fails. -/
theorem removed_endpoint_mem_iff {o n : Spec} {p : String} :
    Change.removed_endpoint p ∈ diffSpecs o n ↔
      (∃ it, (p, it) ∈ o) ∧ getKey n p = none := by
  unfold diffSpecs
  rw [List.mem_append]
  constructor
  · rintro (h | h)
    · rcases forwardPass_shape h with ⟨q, h'⟩ | ⟨q, m, h'⟩ | ⟨q, m, ds, h'⟩ |
        ⟨q, m, ds, h'⟩ <;> simp at h'
    · unfold backwardPass at h
      rw [List.mem_flatMap] at h
      obtain ⟨⟨p1, it⟩, hpe, h⟩ := h
      split at h
      next hf =>
        rw [List.mem_singleton, Change.removed_endpoint.injEq] at h
        subst h
        exact ⟨⟨it, hpe⟩, hf⟩
      next ni hf =>
        unfold backwardItem at h
        rw [List.mem_flatMap] at h
        obtain ⟨me, hme, h⟩ := h
        split at h <;> simp at h
  · rintro ⟨⟨it, hit⟩, hnone⟩
    right
    unfold backwardPass
    rw [List.mem_flatMap]
    refine ⟨(p, it), hit, ?_⟩
    show Change.removed_endpoint p ∈ match getKey n p with
      | none => [Change.removed_endpoint p]
      | some newItem => backwardItem p newItem it
    rw [hnone]
    simp

/-- A `new_method` record appears exactly for a path entry of the new
spec found in the old spec, with a method key of the new path item whose
lookup in the old path item fails. -/
theorem new_method_mem_iff {o n : Spec} {p m : String} :
    Change.new_method p m ∈ diffSpecs o n ↔
      ∃ it, (p, it) ∈ n ∧ ∃ oi, getKey o p = some oi ∧
        (∃ op, (m, op) ∈ it) ∧ getKey oi m = none := by
  unfold diffSpecs
  rw [List.mem_append]
  constructor
  · rintro (h | h)
    · unfold forwardPass at h
      rw [List.mem_flatMap] at h
      obtain ⟨⟨p1, it⟩, hpe, h⟩ := h
      split at h
      next hf => simp at h
      next oi hf =>
        unfold forwardItem at h
        rw [List.mem_flatMap] at h
        obtain ⟨⟨m1, op⟩, hme, h⟩ := h
        split at h
        next hg =>
          rw [List.mem_singleton, Change.new_method.injEq] at h
          obtain ⟨hp, hm⟩ := h
          subst hp; subst hm
          exact ⟨it, hpe, oi, hf, ⟨op, hme⟩, hg⟩
        next oo hg =>
          rcases methodChanges_shape h with ⟨ds, h', _⟩ | ⟨ds, h', _⟩ <;>
            simp at h'
    · rcases backwardPass_shape h with ⟨q, h'⟩ | ⟨q, m', h'⟩ <;> simp at h'
  · rintro ⟨it, hit, oi, hoi, ⟨op, hop⟩, hnone⟩
    left
    unfold forwardPass
    rw [List.mem_flatMap]
    refine ⟨(p, it), hit, ?_⟩
    show Change.new_method p m ∈ match getKey o p with
      | none => [Change.new_endpoint p]
      | some oldItem => forwardItem p oldItem it
    rw [hoi]
    unfold forwardItem
    rw [List.mem_flatMap]
    refine ⟨(m, op), hop, ?_⟩
    show Change.new_method p m ∈ match getKey oi m with
      | none => [Change.new_method p m]
      | some oldOp => methodChanges p m oldOp op
    rw [hnone]
    simp

/-- A `removed_method` record appears exactly for a path entry of the old
spec found in the new spec, with a method key of the old path item whose
lookup in the new path item fails. -/
theorem removed_method_mem_iff {o n : Spec} {p m : String} :
    Change.removed_method p m ∈ diffSpecs o n ↔
      ∃ it, (p, it) ∈ o ∧ ∃ ni, getKey n p = some ni ∧
        (∃ op, (m, op) ∈ it) ∧ getKey ni m = none := by
  unfold diffSpecs
  rw [List.mem_append]
  constructor
  · rintro (h | h)
    · rcases forwardPass_shape h with ⟨q, h'⟩ | ⟨q, m', h'⟩ | ⟨q, m', ds, h'⟩ |
        ⟨q, m', ds, h'⟩ <;> simp at h'
    · unfold backwardPass at h
      rw [List.mem_flatMap] at h
      obtain ⟨⟨p1, it⟩, hpe, h⟩ := h
      split at h
      next hf => simp at h
      next ni hf =>
        unfold backwardItem at h
        rw [List.mem_flatMap] at h
        obtain ⟨⟨m1, op⟩, hme, h⟩ := h
        split at h
        next hg =>
          rw [List.mem_singleton, Change.removed_method.injEq] at h
          obtain ⟨hp, hm⟩ := h
          subst hp; subst hm
          exact ⟨it, hpe, ni, hf, ⟨op, hme⟩, hg⟩
        next oo hg => simp at h
  · rintro ⟨it, hit, ni, hni, ⟨op, hop⟩, hnone⟩
    right
    unfold backwardPass
    rw [List.mem_flatMap]
    refine ⟨(p, it), hit, ?_⟩
    show Change.removed_method p m ∈ match getKey n p with
      | none => [Change.removed_endpoint p]
      | some newItem => backwardItem p newItem it
    rw [hni]
    unfold backwardItem
    rw [List.mem_flatMap]
    refine ⟨(m, op), hop, ?_⟩
    show Change.removed_method p m ∈ match getKey ni m with
      | none => [Change.removed_method p m]
      | some _ => []
    rw [hnone]
    simp

/-- A `parameter_changes` record appears exactly for a method present on
both sides (new-side entry, old-side lookups) whose parameter delta list
is non-empty; its details are that delta list. -/
theorem parameter_changes_mem_iff {o n : Spec} {p m : String}
    {ds : List ParamDelta} :
    Change.parameter_changes p m ds ∈ diffSpecs o n ↔
      ∃ it, (p, it) ∈ n ∧ ∃ oi, getKey o p = some oi ∧
        ∃ op, (m, op) ∈ it ∧ ∃ oo, getKey oi m = some oo ∧
          ds = compareParameters oo.parameters op.parameters ∧ ds ≠ [] := by
  unfold diffSpecs
  rw [List.mem_append]
  constructor
  · rintro (h | h)
    · unfold forwardPass at h
      rw [List.mem_flatMap] at h
      obtain ⟨⟨p1, it⟩, hpe, h⟩ := h
      split at h
      next hf => simp at h
      next oi hf =>
        unfold forwardItem at h
        rw [List.mem_flatMap] at h
        obtain ⟨⟨m1, op⟩, hme, h⟩ := h
        split at h
        next hg => simp at h
        next oo hg =>
          rcases methodChanges_shape h with ⟨ds', h', hds, hne⟩ | ⟨ds', h', _⟩
          · rw [Change.parameter_changes.injEq] at h'
            obtain ⟨hp, hm, hd⟩ := h'
            subst hp; subst hm; subst hd
            exact ⟨it, hpe, oi, hf, op, hme, oo, hg, hds, hne⟩
          · simp at h'
    · rcases backwardPass_shape h with ⟨q, h'⟩ | ⟨q, m', h'⟩ <;> simp at h'
  · rintro ⟨it, hit, oi, hoi, op, hop, oo, hoo, hds, hne⟩
    left
    unfold forwardPass
    rw [List.mem_flatMap]
    refine ⟨(p, it), hit, ?_⟩
    show Change.parameter_changes p m ds ∈ match getKey o p with
      | none => [Change.new_endpoint p]
      | some oldItem => forwardItem p oldItem it
    rw [hoi]
    unfold forwardItem
    rw [List.mem_flatMap]
    refine ⟨(m, op), hop, ?_⟩
    show Change.parameter_changes p m ds ∈ match getKey oi m with
      | none => [Change.new_method p m]
      | some oldOp => methodChanges p m oldOp op
    rw [hoo]
    unfold methodChanges
    rw [List.mem_append]
    left
    rw [← hds, if_neg hne]
    simp

/-- A `response_changes` record appears exactly for a method present on
both sides whose response delta list is non-empty; its details are that
delta list. -/
theorem response_changes_mem_iff {o n : Spec} {p m : String}
    {ds : List RespDelta} :
    Change.response_changes p m ds ∈ diffSpecs o n ↔
      ∃ it, (p, it) ∈ n ∧ ∃ oi, getKey o p = some oi ∧
        ∃ op, (m, op) ∈ it ∧ ∃ oo, getKey oi m = some oo ∧
          ds = compareResponses oo.responses op.responses ∧ ds ≠ [] := by
  unfold diffSpecs
  rw [List.mem_append]
  constructor
  · rintro (h | h)
    · unfold forwardPass at h
      rw [List.mem_flatMap] at h
      obtain ⟨⟨p1, it⟩, hpe, h⟩ := h
      split at h
      next hf => simp at h
      next oi hf =>
        unfold forwardItem at h
        rw [List.mem_flatMap] at h
        obtain ⟨⟨m1, op⟩, hme, h⟩ := h
        split at h
        next hg => simp at h
        next oo hg =>
          rcases methodChanges_shape h with ⟨ds', h', _⟩ | ⟨ds', h', hds, hne⟩
          · simp at h'
          · rw [Change.response_changes.injEq] at h'
            obtain ⟨hp, hm, hd⟩ := h'
            subst hp; subst hm; subst hd
            exact ⟨it, hpe, oi, hf, op, hme, oo, hg, hds, hne⟩
    · rcases backwardPass_shape h with ⟨q, h'⟩ | ⟨q, m', h'⟩ <;> simp at h'
  · rintro ⟨it, hit, oi, hoi, op, hop, oo, hoo, hds, hne⟩
    left
    unfold forwardPass
    rw [List.mem_flatMap]
    refine ⟨(p, it), hit, ?_⟩
    show Change.response_changes p m ds ∈ match getKey o p with
      | none => [Change.new_endpoint p]
      | some oldItem => forwardItem p oldItem it
    rw [hoi]
    unfold forwardItem
    rw [List.mem_flatMap]
    refine ⟨(m, op), hop, ?_⟩
    show Change.response_changes p m ds ∈ match getKey oi m with
      | none => [Change.new_method p m]
      | some oldOp => methodChanges p m oldOp op
    rw [hoo]
    unfold methodChanges
    rw [List.mem_append]
    right
    rw [← hds, if_neg hne]
    simp

/-! Well-formedness of parsed specs.  Key lists of JSON objects are
duplicate-free by construction; the parameter condition additionally
rules out the OpenAPI-invalid duplication of a `(name, location)` pair
inside one `parameters` array, which `dupSpec` shows the source
mishandles. -/

/-- The identifying `(name, location)` pair of a parameter. -/
def Param.key (p : Param) : String × String := (p.name, p.loc)

/-- An operation is well-formed when its parameters carry pairwise
distinct `(name, location)` pairs. -/
def wfOperation (op : Operation) : Prop :=
  (op.parameters.map Param.key).Nodup

/-- A path item is well-formed when its method keys are duplicate-free
and every operation is well-formed. -/
def wfPathItem (it : PathItem) : Prop :=
  (it.map Prod.fst).Nodup ∧ ∀ me ∈ it, wfOperation me.2

/-- A spec is well-formed when its path keys are duplicate-free and every
path item is well-formed. -/
def wfSpec (s : Spec) : Prop :=
  (s.map Prod.fst).Nodup ∧ ∀ pe ∈ s, wfPathItem pe.2

instance : DecidablePred wfOperation := fun op => by
  unfold wfOperation; infer_instance

instance : DecidablePred wfPathItem := fun it => by
  unfold wfPathItem; infer_instance

instance : DecidablePred wfSpec := fun s => by
  unfold wfSpec; infer_instance

/-- Entry membership and lookup agree on duplicate-free key lists. -/
theorem mem_iff_getKey {α : Type} {o : List (String × α)} {k : String}
    {v : α} (hnd : (o.map Prod.fst).Nodup) :
    (k, v) ∈ o ↔ getKey o k = some v :=
  ⟨getKey_of_mem hnd, getKey_eq_some_mem⟩

/-- A successful `(name, location)` parameter lookup returns a member
carrying that pair. -/
theorem pfind_mem {ps : List Param} {n l : String} {q : Param}
    (h : pfind ps n l = some q) : q ∈ ps ∧ q.name = n ∧ q.loc = l := by
  refine ⟨List.mem_of_find?_eq_some h, ?_⟩
  have hp := List.find?_some h
  rw [Bool.and_eq_true, beq_iff_eq, beq_iff_eq] at hp
  exact hp

/-- Under pairwise-distinct `(name, location)` pairs, every member is
found by the lookup on its own pair. -/
theorem pfind_of_mem {ps : List Param} {n l : String} {q : Param}
    (hnd : (ps.map Param.key).Nodup) (hq : q ∈ ps)
    (hn : q.name = n) (hl : q.loc = l) : pfind ps n l = some q := by
  have hsome : (ps.find? (fun r => r.name == n && r.loc == l)).isSome := by
    rw [List.find?_isSome]
    exact ⟨q, hq, by simp [hn, hl]⟩
  obtain ⟨e, hfind⟩ := Option.isSome_iff_exists.mp hsome
  obtain ⟨hemem, hen, hel⟩ := pfind_mem hfind
  have : e = q := by
    refine List.inj_on_of_nodup_map hnd hemem hq ?_
    unfold Param.key
    rw [hen, hel, hn, hl]
  unfold pfind
  rw [hfind, this]

/-- `compareResponses` of a key list against itself is empty. -/
theorem compareResponses_self (r : List String) :
    compareResponses r r = [] := by
  rw [List.eq_nil_iff_forall_not_mem]
  intro d hd
  cases d with
  | new_response_code c =>
    rw [new_response_mem_iff] at hd
    exact hd.2 hd.1
  | removed_response_code c =>
    rw [removed_response_mem_iff] at hd
    exact hd.2 hd.1

/-- `compareParameters` of a duplicate-free parameter list against itself
is empty: every parameter's lookup finds the parameter itself, so the raw
`required` values agree. -/
theorem compareParameters_self {ps : List Param}
    (hnd : (ps.map Param.key).Nodup) : compareParameters ps ps = [] := by
  rw [List.eq_nil_iff_forall_not_mem]
  intro d hd
  cases d with
  | new_parameter n l =>
    rw [new_parameter_mem_iff] at hd
    obtain ⟨q, hq, hn, hl, hnone⟩ := hd
    rw [pfind_of_mem hnd hq hn hl] at hnone
    cases hnone
  | removed_parameter n l =>
    rw [removed_parameter_mem_iff] at hd
    obtain ⟨q, hq, hn, hl, hnone⟩ := hd
    rw [pfind_of_mem hnd hq hn hl] at hnone
    cases hnone
  | requirement_changed n l f t =>
    rw [requirement_changed_mem_iff] at hd
    obtain ⟨q, hq, hn, hl, op, hfind, hreq, _, _⟩ := hd
    rw [pfind_of_mem hnd hq hn hl] at hfind
    injection hfind with h
    exact hreq (h ▸ rfl)

/-- The diff of a well-formed parsed spec against itself is empty. -/
theorem diffSpecs_self_eq_nil {s : Spec} (hwf : wfSpec s) :
    diffSpecs s s = [] := by
  rw [List.eq_nil_iff_forall_not_mem]
  intro c hc
  cases c with
  | new_endpoint p =>
    rw [new_endpoint_mem_iff] at hc
    obtain ⟨⟨it, hit⟩, hnone⟩ := hc
    exact getKey_eq_none_iff.mp hnone it hit
  | removed_endpoint p =>
    rw [removed_endpoint_mem_iff] at hc
    obtain ⟨⟨it, hit⟩, hnone⟩ := hc
    exact getKey_eq_none_iff.mp hnone it hit
  | new_method p m =>
    rw [new_method_mem_iff] at hc
    obtain ⟨it, hit, oi, hoi, ⟨op, hop⟩, hnone⟩ := hc
    rw [getKey_of_mem hwf.1 hit] at hoi
    injection hoi with h
    subst h
    exact getKey_eq_none_iff.mp hnone op hop
  | removed_method p m =>
    rw [removed_method_mem_iff] at hc
    obtain ⟨it, hit, ni, hni, ⟨op, hop⟩, hnone⟩ := hc
    rw [getKey_of_mem hwf.1 hit] at hni
    injection hni with h
    subst h
    exact getKey_eq_none_iff.mp hnone op hop
  | parameter_changes p m ds =>
    rw [parameter_changes_mem_iff] at hc
    obtain ⟨it, hit, oi, hoi, op, hop, oo, hoo, hds, hne⟩ := hc
    rw [getKey_of_mem hwf.1 hit] at hoi
    injection hoi with h
    subst h
    have hwit := hwf.2 _ hit
    rw [getKey_of_mem hwit.1 hop] at hoo
    injection hoo with h
    subst h
    exact hne (hds.trans (compareParameters_self (hwit.2 _ hop)))
  | response_changes p m ds =>
    rw [response_changes_mem_iff] at hc
    obtain ⟨it, hit, oi, hoi, op, hop, oo, hoo, hds, hne⟩ := hc
    rw [getKey_of_mem hwf.1 hit] at hoi
    injection hoi with h
    subst h
    have hwit := hwf.2 _ hit
    rw [getKey_of_mem hwit.1 hop] at hoo
    injection hoo with h
    subst h
    exact hne (hds.trans (compareResponses_self _))

/-- C5 amended: `diff(X, X)` is empty for every spec string whose parse
is well-formed — duplicate-free path keys, method keys (guaranteed for
JSON/YAML object keys) and `(name, location)` parameter pairs (the
OpenAPI uniqueness rule the source relies on; `dupSpec` violates it and
refutes the unconditional claim). -/
theorem diff_self_empty_of_wf (jsonParse yamlParse : String → Option Spec)
    (x : String) (s : Spec)
    (hp : parseSpec jsonParse yamlParse x = some s) (hwf : wfSpec s) :
    diffOpenAPISpecs jsonParse yamlParse x x = [] := by
  unfold diffOpenAPISpecs
  rw [hp]
  exact diffSpecs_self_eq_nil hwf

/-- A small well-formed spec used by witnesses. -/
def goodSpec : Spec :=
  [("/v1/users", [("get", ⟨[⟨"expand", "query", some true⟩], ["200"]⟩)])]

/-- A JSON decoder stub mapping the input string `"ok"` to `goodSpec`. -/
def jsonParseGood : String → Option Spec :=
  fun s => if s = "ok" then some goodSpec else none

/-- Witness for the amended C5 at a concrete well-formed spec. -/
theorem diff_self_empty_of_wf_witness :
    parseSpec jsonParseGood parseNone "ok" = some goodSpec ∧
    wfSpec goodSpec ∧
    diffOpenAPISpecs jsonParseGood parseNone "ok" "ok" = [] :=
  ⟨rfl, by decide,
    diff_self_empty_of_wf jsonParseGood parseNone "ok" goodSpec rfl (by decide)⟩

/-- C3 amended: for a `(name, location)` pair found in both parameter
lists (duplicate-free on the new side), a `requirement_changed` delta is
emitted iff the *raw* `required` values differ — the source compares with
`!==` before defaulting, so absent-vs-explicit-`false` does emit a delta —
and any emitted delta carries the `|| false`-defaulted flags. -/
theorem requirement_delta_iff_raw_required_ne
    {oldParams newParams : List Param} {n l : String} {po pn : Param}
    (hnd : (newParams.map Param.key).Nodup)
    (ho : pfind oldParams n l = some po)
    (hn : pfind newParams n l = some pn) :
    ((∃ f t, ParamDelta.requirement_changed n l f t ∈
        compareParameters oldParams newParams) ↔ po.required ≠ pn.required) ∧
    (∀ f t, ParamDelta.requirement_changed n l f t ∈
        compareParameters oldParams newParams →
      f = po.required.getD false ∧ t = pn.required.getD false) := by
  have key : ∀ f t, ParamDelta.requirement_changed n l f t ∈
      compareParameters oldParams newParams →
      po.required ≠ pn.required ∧
      f = po.required.getD false ∧ t = pn.required.getD false := by
    intro f t hd
    rw [requirement_changed_mem_iff] at hd
    obtain ⟨q, hq, hqn, hql, op, hop, hreq, hf, ht⟩ := hd
    have hq' : pfind newParams n l = some q := pfind_of_mem hnd hq hqn hql
    rw [hn] at hq'
    injection hq' with hq'
    subst hq'
    rw [ho] at hop
    injection hop with hop
    subst hop
    exact ⟨hreq, hf, ht⟩
  constructor
  · constructor
    · rintro ⟨f, t, hd⟩
      exact (key f t hd).1
    · intro hne
      obtain ⟨hpn_mem, hpn_n, hpn_l⟩ := pfind_mem hn
      refine ⟨po.required.getD false, pn.required.getD false, ?_⟩
      rw [requirement_changed_mem_iff]
      exact ⟨pn, hpn_mem, hpn_n, hpn_l, po, ho, hne, rfl, rfl⟩
  · intro f t hd
    exact (key f t hd).2

/-- Witness for the amended C3 at concrete one-parameter lists with
differing raw `required` values. -/
theorem requirement_delta_iff_raw_required_ne_witness :
    ((∃ f t, ParamDelta.requirement_changed "a" "query" f t ∈
        compareParameters [⟨"a", "query", some true⟩]
          [⟨"a", "query", some false⟩]) ↔
      (some true : Option Bool) ≠ some false) ∧
    (∀ f t, ParamDelta.requirement_changed "a" "query" f t ∈
        compareParameters [⟨"a", "query", some true⟩]
          [⟨"a", "query", some false⟩] →
      f = (some true : Option Bool).getD false ∧
      t = (some false : Option Bool).getD false) :=
  @requirement_delta_iff_raw_required_ne [⟨"a", "query", some true⟩]
    [⟨"a", "query", some false⟩] "a" "query" ⟨"a", "query", some true⟩
    ⟨"a", "query", some false⟩ (by decide) (by decide) (by decide)

/-- C10: when a path is present in both specs, every key of the new path
item (of any name, not only HTTP methods) absent from the old one yields
a `new_method` record, and every key of the old item absent from the new
one yields a `removed_method` record. -/
theorem every_key_treated_as_method
    (oldS newS : Spec) (p m : String) (oldItem newItem : PathItem)
    (ho : getKey oldS p = some oldItem) (hn : getKey newS p = some newItem) :
    (((∃ op, (m, op) ∈ newItem) ∧ getKey oldItem m = none) →
      Change.new_method p m ∈ diffSpecs oldS newS) ∧
    (((∃ op, (m, op) ∈ oldItem) ∧ getKey newItem m = none) →
      Change.removed_method p m ∈ diffSpecs oldS newS) := by
  constructor
  · intro h
    rw [new_method_mem_iff]
    exact ⟨newItem, getKey_eq_some_mem hn, oldItem, ho, h.1, h.2⟩
  · intro h
    rw [removed_method_mem_iff]
    exact ⟨oldItem, getKey_eq_some_mem ho, newItem, hn, h.1, h.2⟩

/-- Path items exercising C10 with the non-HTTP key `summary`. -/
def pathItemGetOnly : PathItem := [("get", emptyOp)]

/-- The new-side path item of the C10 witness, carrying a `summary` key. -/
def pathItemWithSummary : PathItem := [("get", emptyOp), ("summary", emptyOp)]

/-- Witness for C10: a path-level `summary` key added on the new side is
reported as a `new_method` record. -/
theorem every_key_treated_as_method_witness :
    Change.new_method "/a" "summary" ∈
      diffSpecs [("/a", pathItemGetOnly)] [("/a", pathItemWithSummary)] :=
  (every_key_treated_as_method [("/a", pathItemGetOnly)]
      [("/a", pathItemWithSummary)] "/a" "summary"
      pathItemGetOnly pathItemWithSummary rfl rfl).1
    ⟨⟨emptyOp, by decide⟩, rfl⟩

/-! Complementarity of the diff under argument swap (C4). -/

/-- The diff contains a parameter delta `d` for `(p, m)` when some
`parameter_changes` record for that pair carries it. -/
def hasParamDelta (l : List Change) (p m : String) (d : ParamDelta) : Prop :=
  ∃ ds, Change.parameter_changes p m ds ∈ l ∧ d ∈ ds

/-- The diff contains a response delta `d` for `(p, m)` when some
`response_changes` record for that pair carries it. -/
def hasRespDelta (l : List Change) (p m : String) (d : RespDelta) : Prop :=
  ∃ ds, Change.response_changes p m ds ∈ l ∧ d ∈ ds

/-- Characterization of parameter-delta presence in the diff, in terms of
the four entry lookups. -/
theorem hasParamDelta_diff_iff {o n : Spec} {p m : String} {d : ParamDelta} :
    hasParamDelta (diffSpecs o n) p m d ↔
      ∃ it, (p, it) ∈ n ∧ ∃ oi, getKey o p = some oi ∧
        ∃ op, (m, op) ∈ it ∧ ∃ oo, getKey oi m = some oo ∧
          d ∈ compareParameters oo.parameters op.parameters := by
  constructor
  · rintro ⟨ds, hmem, hd⟩
    rw [parameter_changes_mem_iff] at hmem
    obtain ⟨it, hit, oi, hoi, op, hop, oo, hoo, hds, -⟩ := hmem
    exact ⟨it, hit, oi, hoi, op, hop, oo, hoo, hds ▸ hd⟩
  · rintro ⟨it, hit, oi, hoi, op, hop, oo, hoo, hd⟩
    exact ⟨compareParameters oo.parameters op.parameters,
      parameter_changes_mem_iff.mpr
        ⟨it, hit, oi, hoi, op, hop, oo, hoo, rfl, List.ne_nil_of_mem hd⟩, hd⟩

/-- Characterization of response-delta presence in the diff, in terms of
the four entry lookups. -/
theorem hasRespDelta_diff_iff {o n : Spec} {p m : String} {d : RespDelta} :
    hasRespDelta (diffSpecs o n) p m d ↔
      ∃ it, (p, it) ∈ n ∧ ∃ oi, getKey o p = some oi ∧
        ∃ op, (m, op) ∈ it ∧ ∃ oo, getKey oi m = some oo ∧
          d ∈ compareResponses oo.responses op.responses := by
  constructor
  · rintro ⟨ds, hmem, hd⟩
    rw [response_changes_mem_iff] at hmem
    obtain ⟨it, hit, oi, hoi, op, hop, oo, hoo, hds, -⟩ := hmem
    exact ⟨it, hit, oi, hoi, op, hop, oo, hoo, hds ▸ hd⟩
  · rintro ⟨it, hit, oi, hoi, op, hop, oo, hoo, hd⟩
    exact ⟨compareResponses oo.responses op.responses,
      response_changes_mem_iff.mpr
        ⟨it, hit, oi, hoi, op, hop, oo, hoo, rfl, List.ne_nil_of_mem hd⟩, hd⟩

/-- Parameter-delta presence phrased purely through lookups, available
once the new-side spec has duplicate-free keys. -/
theorem hasParamDelta_getKey_iff {o n : Spec} {p m : String} {d : ParamDelta}
    (hn : wfSpec n) :
    hasParamDelta (diffSpecs o n) p m d ↔
      ∃ oi ni oo no, getKey o p = some oi ∧ getKey n p = some ni ∧
        getKey oi m = some oo ∧ getKey ni m = some no ∧
        d ∈ compareParameters oo.parameters no.parameters := by
  rw [hasParamDelta_diff_iff]
  constructor
  · rintro ⟨it, hit, oi, hoi, op, hop, oo, hoo, hd⟩
    have h2 : getKey n p = some it := getKey_of_mem hn.1 hit
    have h4 : getKey it m = some op := getKey_of_mem (hn.2 _ hit).1 hop
    exact ⟨oi, it, oo, op, hoi, h2, hoo, h4, hd⟩
  · rintro ⟨oi, ni, oo, no, h1, h2, h3, h4, hd⟩
    exact ⟨ni, getKey_eq_some_mem h2, oi, h1, no, getKey_eq_some_mem h4,
      oo, h3, hd⟩

/-- Response-delta presence phrased purely through lookups, available
once the new-side spec has duplicate-free keys. -/
theorem hasRespDelta_getKey_iff {o n : Spec} {p m : String} {d : RespDelta}
    (hn : wfSpec n) :
    hasRespDelta (diffSpecs o n) p m d ↔
      ∃ oi ni oo no, getKey o p = some oi ∧ getKey n p = some ni ∧
        getKey oi m = some oo ∧ getKey ni m = some no ∧
        d ∈ compareResponses oo.responses no.responses := by
  rw [hasRespDelta_diff_iff]
  constructor
  · rintro ⟨it, hit, oi, hoi, op, hop, oo, hoo, hd⟩
    have h2 : getKey n p = some it := getKey_of_mem hn.1 hit
    have h4 : getKey it m = some op := getKey_of_mem (hn.2 _ hit).1 hop
    exact ⟨oi, it, oo, op, hoi, h2, hoo, h4, hd⟩
  · rintro ⟨oi, ni, oo, no, h1, h2, h3, h4, hd⟩
    exact ⟨ni, getKey_eq_some_mem h2, oi, h1, no, getKey_eq_some_mem h4,
      oo, h3, hd⟩

/-- The operation reached by a path and method lookup inside a
well-formed spec is well-formed. -/
theorem wfOp_of_lookup {s : Spec} (hs : wfSpec s) {p m : String}
    {it : PathItem} {op : Operation}
    (h1 : getKey s p = some it) (h2 : getKey it m = some op) :
    wfOperation op :=
  (hs.2 _ (getKey_eq_some_mem h1)).2 _ (getKey_eq_some_mem h2)

/-- Swapping the compared parameter lists turns `new_parameter` into
`removed_parameter`. -/
theorem new_removed_param_swap {po pn : List Param} {nm l : String} :
    ParamDelta.new_parameter nm l ∈ compareParameters po pn ↔
      ParamDelta.removed_parameter nm l ∈ compareParameters pn po := by
  rw [new_parameter_mem_iff, removed_parameter_mem_iff]

/-- Swapping the compared parameter lists (both duplicate-free on their
`(name, location)` pairs) swaps the `from`/`to` flags of a
`requirement_changed` delta. -/
theorem requirement_changed_swap {po pn : List Param} {nm l : String}
    {f t : Bool} (hpo : (po.map Param.key).Nodup)
    (hpn : (pn.map Param.key).Nodup) :
    ParamDelta.requirement_changed nm l f t ∈ compareParameters po pn ↔
      ParamDelta.requirement_changed nm l t f ∈ compareParameters pn po := by
  rw [requirement_changed_mem_iff, requirement_changed_mem_iff]
  constructor
  · rintro ⟨q, hq, hqn, hql, op, hop, hne, hf, ht⟩
    obtain ⟨hopm, hopn, hopl⟩ := pfind_mem hop
    exact ⟨op, hopm, hopn, hopl, q, pfind_of_mem hpn hq hqn hql,
      Ne.symm hne, ht, hf⟩
  · rintro ⟨q, hq, hqn, hql, op, hop, hne, ht, hf⟩
    obtain ⟨hopm, hopn, hopl⟩ := pfind_mem hop
    exact ⟨op, hopm, hopn, hopl, q, pfind_of_mem hpo hq hqn hql,
      Ne.symm hne, hf, ht⟩

/-- Swapping the compared response key lists turns `new_response_code`
into `removed_response_code`. -/
theorem new_removed_response_swap {ro rn : List String} {c : String} :
    RespDelta.new_response_code c ∈ compareResponses ro rn ↔
      RespDelta.removed_response_code c ∈ compareResponses rn ro := by
  rw [new_response_mem_iff, removed_response_mem_iff]

/-- Spec-level complementarity of the diff under argument swap, for
well-formed specs. -/
theorem diffSpecs_swap_complementary (sA sB : Spec)
    (hA : wfSpec sA) (hB : wfSpec sB) :
    (∀ p, Change.new_endpoint p ∈ diffSpecs sA sB ↔
      Change.removed_endpoint p ∈ diffSpecs sB sA) ∧
    (∀ p, Change.removed_endpoint p ∈ diffSpecs sA sB ↔
      Change.new_endpoint p ∈ diffSpecs sB sA) ∧
    (∀ p m, Change.new_method p m ∈ diffSpecs sA sB ↔
      Change.removed_method p m ∈ diffSpecs sB sA) ∧
    (∀ p m, Change.removed_method p m ∈ diffSpecs sA sB ↔
      Change.new_method p m ∈ diffSpecs sB sA) ∧
    (∀ p m nm l, hasParamDelta (diffSpecs sA sB) p m
        (ParamDelta.new_parameter nm l) ↔
      hasParamDelta (diffSpecs sB sA) p m
        (ParamDelta.removed_parameter nm l)) ∧
    (∀ p m nm l, hasParamDelta (diffSpecs sA sB) p m
        (ParamDelta.removed_parameter nm l) ↔
      hasParamDelta (diffSpecs sB sA) p m
        (ParamDelta.new_parameter nm l)) ∧
    (∀ p m nm l f t, hasParamDelta (diffSpecs sA sB) p m
        (ParamDelta.requirement_changed nm l f t) ↔
      hasParamDelta (diffSpecs sB sA) p m
        (ParamDelta.requirement_changed nm l t f)) ∧
    (∀ p m c, hasRespDelta (diffSpecs sA sB) p m
        (RespDelta.new_response_code c) ↔
      hasRespDelta (diffSpecs sB sA) p m
        (RespDelta.removed_response_code c)) ∧
    (∀ p m c, hasRespDelta (diffSpecs sA sB) p m
        (RespDelta.removed_response_code c) ↔
      hasRespDelta (diffSpecs sB sA) p m
        (RespDelta.new_response_code c)) := by
  refine ⟨?_, ?_, ?_, ?_, ?_, ?_, ?_, ?_, ?_⟩
  · intro p
    rw [new_endpoint_mem_iff, removed_endpoint_mem_iff]
  · intro p
    rw [removed_endpoint_mem_iff, new_endpoint_mem_iff]
  · intro p m
    rw [new_method_mem_iff, removed_method_mem_iff]
  · intro p m
    rw [removed_method_mem_iff, new_method_mem_iff]
  · intro p m nm l
    rw [hasParamDelta_getKey_iff hB, hasParamDelta_getKey_iff hA]
    constructor
    · rintro ⟨oi, ni, oo, no, h1, h2, h3, h4, hd⟩
      exact ⟨ni, oi, no, oo, h2, h1, h4, h3, new_removed_param_swap.mp hd⟩
    · rintro ⟨oi, ni, oo, no, h1, h2, h3, h4, hd⟩
      exact ⟨ni, oi, no, oo, h2, h1, h4, h3, new_removed_param_swap.mpr hd⟩
  · intro p m nm l
    rw [hasParamDelta_getKey_iff hB, hasParamDelta_getKey_iff hA]
    constructor
    · rintro ⟨oi, ni, oo, no, h1, h2, h3, h4, hd⟩
      exact ⟨ni, oi, no, oo, h2, h1, h4, h3, new_removed_param_swap.mpr hd⟩
    · rintro ⟨oi, ni, oo, no, h1, h2, h3, h4, hd⟩
      exact ⟨ni, oi, no, oo, h2, h1, h4, h3, new_removed_param_swap.mp hd⟩
  · intro p m nm l f t
    rw [hasParamDelta_getKey_iff hB, hasParamDelta_getKey_iff hA]
    constructor
    · rintro ⟨oi, ni, oo, no, h1, h2, h3, h4, hd⟩
      exact ⟨ni, oi, no, oo, h2, h1, h4, h3,
        (requirement_changed_swap (wfOp_of_lookup hA h1 h3)
          (wfOp_of_lookup hB h2 h4)).mp hd⟩
    · rintro ⟨oi, ni, oo, no, h1, h2, h3, h4, hd⟩
      exact ⟨ni, oi, no, oo, h2, h1, h4, h3,
        (requirement_changed_swap (wfOp_of_lookup hA h2 h4)
          (wfOp_of_lookup hB h1 h3)).mpr hd⟩
  · intro p m c
    rw [hasRespDelta_getKey_iff hB, hasRespDelta_getKey_iff hA]
    constructor
    · rintro ⟨oi, ni, oo, no, h1, h2, h3, h4, hd⟩
      exact ⟨ni, oi, no, oo, h2, h1, h4, h3, new_removed_response_swap.mp hd⟩
    · rintro ⟨oi, ni, oo, no, h1, h2, h3, h4, hd⟩
      exact ⟨ni, oi, no, oo, h2, h1, h4, h3, new_removed_response_swap.mpr hd⟩
  · intro p m c
    rw [hasRespDelta_getKey_iff hB, hasRespDelta_getKey_iff hA]
    constructor
    · rintro ⟨oi, ni, oo, no, h1, h2, h3, h4, hd⟩
      exact ⟨ni, oi, no, oo, h2, h1, h4, h3, new_removed_response_swap.mpr hd⟩
    · rintro ⟨oi, ni, oo, no, h1, h2, h3, h4, hd⟩
      exact ⟨ni, oi, no, oo, h2, h1, h4, h3, new_removed_response_swap.mp hd⟩

/-- C4 counterexample: with `A = B = "X"` parsing to `dupSpec` (a valid
JSON spec with a duplicated `(name, location)` parameter pair), both
diff directions equal the same list containing a
`parameter_requirement_changed` delta with `from = true, to = false`,
while the swapped-flags delta required of `diff(B, A)` by the claim is
absent — so the two runs are not complementary. -/
theorem diff_swap_not_complementary :
    hasParamDelta (diffOpenAPISpecs jsonParseDup parseNone "X" "X") "/a" "get"
      (ParamDelta.requirement_changed "p" "query" true false) ∧
    ¬ hasParamDelta (diffOpenAPISpecs jsonParseDup parseNone "X" "X") "/a" "get"
      (ParamDelta.requirement_changed "p" "query" false true) := by
  constructor
  · exact ⟨[ParamDelta.requirement_changed "p" "query" true false],
      by decide, by decide⟩
  · rintro ⟨ds, hmem, hd⟩
    have heq : diffOpenAPISpecs jsonParseDup parseNone "X" "X" =
        [Change.parameter_changes "/a" "get"
          [ParamDelta.requirement_changed "p" "query" true false]] := by decide
    rw [heq, List.mem_singleton, Change.parameter_changes.injEq] at hmem
    obtain ⟨-, -, hds⟩ := hmem
    subst hds
    exact absurd hd (by decide)

/-- C4 amended: for any two spec strings whose parses are well-formed
(duplicate-free path keys, method keys and `(name, location)` parameter
pairs), swapping the diff's arguments produces exactly the complementary
records: `new_endpoint`/`removed_endpoint`, `new_method`/`removed_method`,
`new_parameter`/`removed_parameter` and
`new_response_code`/`removed_response_code` exchange, and
`parameter_requirement_changed` deltas reappear with `from`/`to`
swapped. -/
theorem diff_swap_complementary
    (jsonParse yamlParse : String → Option Spec) (a b : String)
    (sA sB : Spec)
    (hpA : parseSpec jsonParse yamlParse a = some sA)
    (hpB : parseSpec jsonParse yamlParse b = some sB)
    (hA : wfSpec sA) (hB : wfSpec sB) :
    (∀ p, Change.new_endpoint p ∈ diffOpenAPISpecs jsonParse yamlParse a b ↔
      Change.removed_endpoint p ∈ diffOpenAPISpecs jsonParse yamlParse b a) ∧
    (∀ p, Change.removed_endpoint p ∈ diffOpenAPISpecs jsonParse yamlParse a b ↔
      Change.new_endpoint p ∈ diffOpenAPISpecs jsonParse yamlParse b a) ∧
    (∀ p m, Change.new_method p m ∈ diffOpenAPISpecs jsonParse yamlParse a b ↔
      Change.removed_method p m ∈ diffOpenAPISpecs jsonParse yamlParse b a) ∧
    (∀ p m, Change.removed_method p m ∈ diffOpenAPISpecs jsonParse yamlParse a b ↔
      Change.new_method p m ∈ diffOpenAPISpecs jsonParse yamlParse b a) ∧
    (∀ p m nm l, hasParamDelta (diffOpenAPISpecs jsonParse yamlParse a b) p m
        (ParamDelta.new_parameter nm l) ↔
      hasParamDelta (diffOpenAPISpecs jsonParse yamlParse b a) p m
        (ParamDelta.removed_parameter nm l)) ∧
    (∀ p m nm l, hasParamDelta (diffOpenAPISpecs jsonParse yamlParse a b) p m
        (ParamDelta.removed_parameter nm l) ↔
      hasParamDelta (diffOpenAPISpecs jsonParse yamlParse b a) p m
        (ParamDelta.new_parameter nm l)) ∧
    (∀ p m nm l f t, hasParamDelta (diffOpenAPISpecs jsonParse yamlParse a b) p m
        (ParamDelta.requirement_changed nm l f t) ↔
      hasParamDelta (diffOpenAPISpecs jsonParse yamlParse b a) p m
        (ParamDelta.requirement_changed nm l t f)) ∧
    (∀ p m c, hasRespDelta (diffOpenAPISpecs jsonParse yamlParse a b) p m
        (RespDelta.new_response_code c) ↔
      hasRespDelta (diffOpenAPISpecs jsonParse yamlParse b a) p m
        (RespDelta.removed_response_code c)) ∧
    (∀ p m c, hasRespDelta (diffOpenAPISpecs jsonParse yamlParse a b) p m
        (RespDelta.removed_response_code c) ↔
      hasRespDelta (diffOpenAPISpecs jsonParse yamlParse b a) p m
        (RespDelta.new_response_code c)) := by
  have eAB : diffOpenAPISpecs jsonParse yamlParse a b = diffSpecs sA sB := by
    unfold diffOpenAPISpecs
    rw [hpA, hpB]
  have eBA : diffOpenAPISpecs jsonParse yamlParse b a = diffSpecs sB sA := by
    unfold diffOpenAPISpecs
    rw [hpA, hpB]
  rw [eAB, eBA]
  exact diffSpecs_swap_complementary sA sB hA hB

/-- A second well-formed spec for the C4 witness: `required` flipped to
`false`, an extra response code, and an extra path. -/
def goodSpecB : Spec :=
  [("/v1/users", [("get", ⟨[⟨"expand", "query", some false⟩], ["200", "404"]⟩)]),
   ("/v2/items", [("post", emptyOp)])]

/-- A JSON decoder stub for the C4 witness mapping `"ok"` to `goodSpec`
and `"okB"` to `goodSpecB`. -/
def jsonParsePair : String → Option Spec :=
  fun s => if s = "ok" then some goodSpec
    else if s = "okB" then some goodSpecB else none

/-- Witness for the amended C4: the `requirement_changed` clause
instantiated at two concrete well-formed specs. -/
theorem diff_swap_complementary_witness :
    hasParamDelta (diffOpenAPISpecs jsonParsePair parseNone "ok" "okB")
        "/v1/users" "get" (ParamDelta.requirement_changed "expand" "query" true false) ↔
      hasParamDelta (diffOpenAPISpecs jsonParsePair parseNone "okB" "ok")
        "/v1/users" "get" (ParamDelta.requirement_changed "expand" "query" false true) :=
  (diff_swap_complementary jsonParsePair parseNone "ok" "okB" goodSpec goodSpecB
      rfl rfl (by decide) (by decide)).2.2.2.2.2.2.1
    "/v1/users" "get" "expand" "query" true false

/-! Embedding of `src/scripts/suggest-updates.js`.  String primitives are
modelled at the character-list level so that concrete evaluation stays
linear; they mirror the JS built-ins (`includes`, `trim`, `split`) and
the small regexes the source applies, restricted to the ASCII behaviour
those call sites exercise. -/

/-- Whether the second character list starts with the first. -/
def leadsWith : List Char → List Char → Bool
  | [], _ => true
  | _ :: _, [] => false
  | a :: as, b :: bs => a == b && leadsWith as bs

/-- Whether `needle` occurs as a contiguous run inside the second list
(JS `String.prototype.includes`). -/
def occursIn (needle : List Char) : List Char → Bool
  | [] => needle.isEmpty
  | c :: cs => leadsWith needle (c :: cs) || occursIn needle cs

/-- JS `hay.includes(pat)`. -/
def strIncludes (hay pat : String) : Bool :=
  occursIn pat.data hay.data

/-- JS `s.startsWith(pre)` (kernel-reducible form of `String.startsWith`). -/
def strStarts (s pre : String) : Bool :=
  leadsWith pre.data s.data

/-- JS `String.prototype.toLowerCase` (kernel-reducible form of
`String.toLower`). -/
def lowerStr (s : String) : String :=
  ⟨s.data.map Char.toLower⟩

/-- Drop the first `n` characters (kernel-reducible form of
`String.drop`). -/
def dropStr (s : String) (n : Nat) : String :=
  ⟨s.data.drop n⟩

/-- Whether the string contains the character (kernel-reducible form of
`String.contains`). -/
def chContains (s : String) (c : Char) : Bool :=
  s.data.contains c

/-- Split at a separator character (JS `split(sep)` for one-character
separators, kernel-reducible form of `String.splitOn`). -/
def splitChAux (sep : Char) (acc : List Char) : List Char → List String
  | [] => [⟨acc.reverse⟩]
  | c :: cs =>
    if c == sep then ⟨acc.reverse⟩ :: splitChAux sep [] cs
    else splitChAux sep (c :: acc) cs

/-- JS `s.split(sep)` for a one-character separator. -/
def splitCh (sep : Char) (s : String) : List String :=
  splitChAux sep [] s.data

/-- Drop leading whitespace characters. -/
def dropWS : List Char → List Char
  | [] => []
  | c :: cs => if c.isWhitespace then dropWS cs else c :: cs

/-- JS `String.prototype.trim` (ASCII whitespace). -/
def trimStr (s : String) : String :=
  ⟨(dropWS ((dropWS s.data).reverse)).reverse⟩

/-- JS `endpoint.replace(/^\//, '')`. -/
def stripLeadSlash (s : String) : String :=
  if strStarts s "/" then dropStr s 1 else s

/-- One-pass state machine for JS `replace(/\{[^}]+\}/g, '')`: a pending
buffer holds the characters seen since an unmatched `{`; a closing `}`
after at least one buffered character discards the group, `{}` and an
unclosed tail are emitted verbatim — exactly the matches of the
non-greedy brace regex. -/
def rpAux : List Char → Option (List Char) → List Char
  | [], none => []
  | [], some buf => '{' :: buf.reverse
  | c :: cs, none =>
    if c == '{' then rpAux cs (some []) else c :: rpAux cs none
  | c :: cs, some buf =>
    if c == '}' then
      if buf.isEmpty then '{' :: '}' :: rpAux cs none
      else rpAux cs none
    else rpAux cs (some (c :: buf))

/-- JS `endpoint.replace(/\{[^}]+\}/g, '')`. -/
def removeParams (s : String) : String := ⟨rpAux s.data none⟩

/-- Node `path.basename` for the slash-separated handles used here. -/
def basename (p : String) : String :=
  ((splitCh '/' p).getLast?).getD p

/-- First-occurrence deduplication, as JS `Set` insertion order. -/
def dedupFirstAux (seen : List String) : List String → List String
  | [] => []
  | x :: xs =>
    if seen.contains x then dedupFirstAux seen xs
    else x :: dedupFirstAux (x :: seen) xs

/-- `[...new Set(list)]`. -/
def dedupFirst (l : List String) : List String := dedupFirstAux [] l

/-- A corpus document handle: its path and its content, `none` when
`fs.readFileSync` would throw. -/
structure TestFile where
  path : String
  content : Option String
deriving DecidableEq

/-- The pattern family tried per endpoint by `findRelevantTestFiles`:
the endpoint itself, without its leading slash, with `{param}` groups
removed, re-joined from its non-empty segments, and each individual
segment that is non-empty, does not start with `{` and is longer than
2 characters. -/
def endpointPatterns (endpoint : String) : List String :=
  [endpoint,
   stripLeadSlash endpoint,
   removeParams endpoint,
   String.intercalate "/" ((splitCh '/' endpoint).filter (fun t => t ≠ ""))]
  ++ ((splitCh '/' endpoint).filter (fun part =>
       part ≠ "" && !(strStarts part "\x7b") && part.length > 2))

/-- The per-file match list: each endpoint is recorded once per matching
pattern (the source deduplicates later through a `Set`); `content` is the
already-lowercased file text and empty patterns are skipped, as in the
source's `if (pattern && content.includes(pattern.toLowerCase()))`. -/
def fileMatches (endpoints : List String) (content : String) : List String :=
  endpoints.flatMap fun e =>
    (endpointPatterns e).filterMap fun pat =>
      if pat ≠ "" && strIncludes content (lowerStr pat) then some e else none

/-- The relevant-file accumulation loop: skip unreadable files, keep a
file when it matched at least one pattern, scoring it by the number of
distinct matched endpoints. -/
def scoreFiles (allTestFiles : List TestFile) (changedEndpoints : List String) :
    List (TestFile × Nat) :=
  allTestFiles.filterMap fun f =>
    match f.content with
    | none => none
    | some raw =>
      let hits := fileMatches changedEndpoints (lowerStr raw)
      if hits.isEmpty then none
      else some (f, (dedupFirst hits).length)

/-- The fallback filename heuristic: basename (lowercased) contains
`api`, `endpoint`, `integration` or `service`. -/
def apiMarkerFile (f : TestFile) : Bool :=
  let fileName := lowerStr (basename f.path)
  strIncludes fileName "api" || strIncludes fileName "endpoint" ||
    strIncludes fileName "integration" || strIncludes fileName "service"

/-- Embedding of `findRelevantTestFiles`: empty-identifier fallback of
the first `min(3, N)` files; otherwise score, stable-sort descending by
distinct-match count, and truncate at
`min(5, max(2, floor(15000 / max(N, 1))))`.  When nothing scored, the
marker-filename fallback returns at most 2 files; the source's trailing
`|| allTestFiles.slice(0, 2)` is dead code because a JS array — even an
empty one — is truthy, so the empty marker list is returned as is. -/
def findRelevantTestFiles (allTestFiles : List TestFile)
    (changedEndpoints : List String) : List TestFile :=
  if changedEndpoints = [] then
    allTestFiles.take (min 3 allTestFiles.length)
  else
    let scored := scoreFiles allTestFiles changedEndpoints
    let sortedFiles := List.insertionSort
      (fun a b : TestFile × Nat => b.2 ≤ a.2) scored
    let maxFiles := min 5 (max 2 (15000 / max allTestFiles.length 1))
    if sortedFiles.length = 0 then
      let apiTestFiles := allTestFiles.filter apiMarkerFile
      apiTestFiles.take (min 2 apiTestFiles.length)
    else
      (sortedFiles.map Prod.fst).take maxFiles

/-- C1 amended: with a non-empty identifier set the ranked result length
is bounded by `clamp(floor(15000/N), 2, 5)` (also through the no-match
marker fallback, which returns at most 2 files); with an empty identifier
set the result is the first `min(3, N)` files, which exceeds the clamp
only for `N > 5000`. -/
theorem findRelevant_length_bound (files : List TestFile)
    (endpoints : List String) (h : 1 ≤ files.length) :
    (endpoints ≠ [] → (findRelevantTestFiles files endpoints).length ≤
      min 5 (max 2 (15000 / files.length))) ∧
    (endpoints = [] → (findRelevantTestFiles files endpoints).length =
      min 3 files.length) := by
  have hmax : max files.length 1 = files.length := Nat.max_eq_left h
  constructor
  · intro hne
    rw [findRelevantTestFiles, if_neg hne]
    dsimp only
    split
    · rw [List.length_take]
      generalize 15000 / files.length = K
      generalize (files.filter apiMarkerFile).length = a
      omega
    · rw [List.length_take, List.length_map, hmax]
      exact Nat.min_le_left _ _
  · intro he
    subst he
    rw [findRelevantTestFiles, if_pos rfl, List.length_take]
    omega

/-- An inert corpus document used by concrete instances. -/
def tfA : TestFile := ⟨"a.js", some ""⟩

/-- C1 counterexample: on a corpus of 5001 documents with an empty
identifier set, the fallback returns `min(3, 5001) = 3` documents while
`clamp(floor(15000/5001), 2, 5) = 2`. -/
theorem findRelevant_budget_counterexample :
    ¬ ((findRelevantTestFiles (List.replicate 5001 tfA) []).length ≤
      min 5 (max 2 (15000 / (List.replicate 5001 tfA).length))) := by
  have h1 : (findRelevantTestFiles (List.replicate 5001 tfA) []).length = 3 := by
    rw [findRelevantTestFiles, if_pos rfl, List.length_take,
      List.length_replicate]
    omega
  rw [h1, List.length_replicate]
  decide

/-- Witness for the amended C1 at a one-document corpus. -/
theorem findRelevant_length_bound_witness :
    1 ≤ ([tfA] : List TestFile).length ∧
    (((["/x/y"] : List String) ≠ [] →
      (findRelevantTestFiles [tfA] ["/x/y"]).length ≤
        min 5 (max 2 (15000 / ([tfA] : List TestFile).length))) ∧
    ((["/x/y"] : List String) = [] →
      (findRelevantTestFiles [tfA] ["/x/y"]).length =
        min 3 ([tfA] : List TestFile).length)) :=
  ⟨by decide, findRelevant_length_bound [tfA] ["/x/y"] (by decide)⟩

/-- A readable document that matches no pattern of `"/users/list"` and
whose basename contains no generic marker. -/
def unmatchedFile : TestFile := ⟨"test/misc.spec.js", some "describe basic math"⟩

/-- C2 (code bug): with a non-empty identifier set, every readable
document scoring 0 and no filename containing a marker, the source
returns the *empty* list — the intended `|| allTestFiles.slice(0, 2)`
fallback is dead code because a JS array (even `[]`) is truthy — instead
of the first 2 corpus documents required by the claim and by the
evidently intended fallback. -/
theorem fallback_returns_empty_not_first_two :
    findRelevantTestFiles [unmatchedFile] ["/users/list"] = [] ∧
    ([unmatchedFile] : List TestFile).take 2 = [unmatchedFile] := by
  exact ⟨by decide, by decide⟩

/-! Embedding of `extractApiEndpoints` and its helpers. -/

/-- JS `s.endsWith(suf)` (kernel-reducible). -/
def strEnds (s suf : String) : Bool :=
  leadsWith suf.data.reverse s.data.reverse

/-- Remove the last `n` characters (JS-style). -/
def dropEnd (s : String) (n : Nat) : String :=
  ⟨s.data.take (s.data.length - n)⟩

/-- The alternatives of the source's
`replace(/\/(get|post|put|delete|patch|head|options)$/, '')`. -/
def httpSuffixes : List String :=
  ["/get", "/post", "/put", "/delete", "/patch", "/head", "/options"]

/-- Strip a trailing HTTP-method segment (at most one alternative can
match a given ending). -/
def stripMethodSuffix (s : String) : String :=
  match httpSuffixes.find? (fun suf => strEnds s suf) with
  | some suf => dropEnd s suf.length
  | none => s

/-- The source's `replace(/^\/paths/, '')`. -/
def stripPathsMarker (s : String) : String :=
  if strStarts s "/paths" then dropStr s 6 else s

/-- Tail of the regex `/\/\{[^}]+\}(\/.*)?$/` after the closing brace:
end of input, or a slash followed by newline-free text to the end. -/
def afterBrace : List Char → Bool
  | [] => true
  | c :: rest => c == '/' && !(rest.contains '\n')

/-- Scanning `[^}]+` after its first character: find the closing brace
(which only the first `}` can be) and check the tail. -/
def braceCont : List Char → Bool
  | [] => false
  | c :: rest => if c == '}' then afterBrace rest else braceCont rest

/-- The characters after `/{`: at least one non-`}` character, then the
closing brace and a matching tail. -/
def braceBody : List Char → Bool
  | [] => false
  | c :: rest => if c == '}' then false else braceCont rest

/-- The characters after the `/` of a candidate match. -/
def paramTail : List Char → Bool
  | c :: rest => c == '{' && braceBody rest
  | [] => false

/-- Index of the leftmost match of `/\/\{[^}]+\}(\/.*)?$/`. -/
def findParamCut : List Char → Option Nat
  | [] => none
  | c :: cs =>
    if c == '/' && paramTail cs then some 0
    else (findParamCut cs).map (· + 1)

/-- The source's `replace(/\/\{[^}]+\}(\/.*)?$/, '')`: truncate at the
leftmost trailing-parameter segment. -/
def stripTrailingParamSegs (s : String) : String :=
  match findParamCut s.data with
  | some i => ⟨s.data.take i⟩
  | none => s

/-- The progressively shorter non-parameterized path fragments, from all
segments down to 2. -/
def cutPaths (segments : List String) : List String :=
  ((List.range' 2 (segments.length - 1)).reverse).filterMap fun i =>
    let cp := "/" ++ String.intercalate "/" (segments.take i)
    if chContains cp '{' then none else some cp

/-- The path of any change record (`change.path`; every record kind
carries one, and JS treats only the empty string as falsy here). -/
def changePath : Change → String
  | Change.new_endpoint p => p
  | Change.removed_endpoint p => p
  | Change.new_method p _ => p
  | Change.removed_method p _ => p
  | Change.parameter_changes p _ _ => p
  | Change.response_changes p _ _ => p

/-- The path-derived identifier variants of one change: the cleaned path,
the parameter-stripped form (when different and non-trivial), and the
segment-prefix fragments. -/
def pathVariants (chPath : String) : List String :=
  if chPath = "" then []
  else
    let cleanPath := stripMethodSuffix (stripPathsMarker chPath)
    if strStarts cleanPath "/" && cleanPath.length > 1 then
      let wp := stripTrailingParamSegs cleanPath
      let withWp :=
        if wp ≠ cleanPath && wp.length > 1 then [cleanPath, wp] else [cleanPath]
      let segments := (splitCh '/' cleanPath).filter (fun t => t ≠ "")
      if segments.length > 1 then withWp ++ cutPaths segments else withWp
    else []

/-- An opening brace as a string. -/
def obr : String := String.singleton '{'

/-- A closing brace as a string. -/
def cbr : String := String.singleton '}'

/-- A JSON string literal.  Escaping is not modelled: the names, codes
and flags rendered here contain no characters JSON.stringify escapes. -/
def jsonStr (s : String) : String := "\"" ++ s ++ "\""

/-- A JSON boolean literal. -/
def jsonBool (b : Bool) : String := if b then "true" else "false"

/-- `JSON.stringify` of one parameter-delta object, keys in the source's
insertion order. -/
def stringifyParamDelta : ParamDelta → String
  | ParamDelta.new_parameter n l =>
    obr ++ "\"type\":\"new_parameter\",\"parameter\":" ++ jsonStr n ++
      ",\"location\":" ++ jsonStr l ++ cbr
  | ParamDelta.removed_parameter n l =>
    obr ++ "\"type\":\"removed_parameter\",\"parameter\":" ++ jsonStr n ++
      ",\"location\":" ++ jsonStr l ++ cbr
  | ParamDelta.requirement_changed n l f t =>
    obr ++ "\"type\":\"parameter_requirement_changed\",\"parameter\":" ++
      jsonStr n ++ ",\"location\":" ++ jsonStr l ++ ",\"from\":" ++
      jsonBool f ++ ",\"to\":" ++ jsonBool t ++ cbr

/-- `JSON.stringify` of one response-delta object. -/
def stringifyRespDelta : RespDelta → String
  | RespDelta.new_response_code c =>
    obr ++ "\"type\":\"new_response_code\",\"code\":" ++ jsonStr c ++ cbr
  | RespDelta.removed_response_code c =>
    obr ++ "\"type\":\"removed_response_code\",\"code\":" ++ jsonStr c ++ cbr

/-- `JSON.stringify` of an array given its rendered elements. -/
def stringifyArr (items : List String) : String :=
  "[" ++ String.intercalate "," items ++ "]"

/-- `JSON.stringify(change.details)` for the records that carry details
(arrays are objects and truthy in JS; the other record kinds have no
`details` field). -/
def detailsString : Change → Option String
  | Change.parameter_changes _ _ ds =>
    some (stringifyArr (ds.map stringifyParamDelta))
  | Change.response_changes _ _ ds =>
    some (stringifyArr (ds.map stringifyRespDelta))
  | _ => none

/-- The character class `[a-zA-Z0-9\/_\-{}]`. -/
def pathChar (c : Char) : Bool :=
  ('a' ≤ c && c ≤ 'z') || ('A' ≤ c && c ≤ 'Z') || ('0' ≤ c && c ≤ '9') ||
    c == '/' || c == '_' || c == '-' || c == '{' || c == '}'

/-- The character class `["']`. -/
def isQuoteChar (c : Char) : Bool :=
  c == '"' || c == Char.ofNat 39

/-- The maximal run of path characters and the remainder. -/
def takeRun : List Char → List Char × List Char
  | [] => ([], [])
  | c :: cs =>
    if pathChar c then ((c :: (takeRun cs).1), (takeRun cs).2)
    else ([], c :: cs)

theorem takeRun_snd_le (l : List Char) : (takeRun l).2.length ≤ l.length := by
  induction l with
  | nil => simp [takeRun]
  | cons c cs ih =>
    unfold takeRun
    by_cases h : pathChar c
    · simp only [if_pos h]
      exact Nat.le_trans ih (Nat.le_succ _)
    · simp [if_neg h]

/-- The part of one `/["']([\/][a-zA-Z0-9\/_\-{}]+)["']/` attempt after
the opening quote and the slash: a non-empty maximal run of path
characters (no backtracking can help, since a quote is never a path
character) followed by a closing quote.  Returns the quote-stripped
capture and the remainder after the closing quote. -/
def afterSlash (cs : List Char) : Option (String × List Char) :=
  match takeRun cs with
  | ([], _) => none
  | (run, r :: rest2) =>
    if isQuoteChar r then some (⟨'/' :: run⟩, rest2) else none
  | (_, []) => none

theorem afterSlash_length {cs : List Char} {pr : String × List Char}
    (h : afterSlash cs = some pr) : pr.2.length < cs.length := by
  unfold afterSlash at h
  split at h
  · cases h
  next run r rest2 heq =>
    split at h
    · injection h with h
      subst h
      have hle := takeRun_snd_le cs
      rw [heq] at hle
      simp only [List.length_cons] at hle
      simp only []
      omega
    · cases h
  · cases h

/-- One attempt of the quoted-path regex anchored at the head: an opening
quote, a slash, then `afterSlash`. -/
def tryPathMatch : List Char → Option (String × List Char)
  | q :: c :: cs =>
    if isQuoteChar q && c == '/' then afterSlash cs else none
  | _ => none

theorem tryPathMatch_length {l : List Char} {pr : String × List Char}
    (h : tryPathMatch l = some pr) : pr.2.length < l.length := by
  cases l with
  | nil => exact Option.noConfusion h
  | cons q l1 =>
    cases l1 with
    | nil => exact Option.noConfusion h
    | cons c cs =>
      have h2 : (if (isQuoteChar q && c == '/') = true then afterSlash cs
          else none) = some pr := h
      by_cases hq : (isQuoteChar q && c == '/') = true
      · rw [if_pos hq] at h2
        have := afterSlash_length h2
        simp only [List.length_cons]
        omega
      · rw [if_neg hq] at h2
        exact Option.noConfusion h2

/-- The global scan of `/["']...["']/g`: on a match, resume after the
closing quote; otherwise advance one character. -/
def scanPathLike (l : List Char) : List String :=
  match h : tryPathMatch l with
  | some pr => pr.1 :: scanPathLike pr.2
  | none =>
    match l with
    | [] => []
    | _ :: cs => scanPathLike cs
termination_by l.length
decreasing_by
  · exact tryPathMatch_length h
  · simp

/-- The maximal run of non-quote characters and the remainder. -/
def takeNonQuote : List Char → List Char × List Char
  | [] => ([], [])
  | c :: cs =>
    if c == '"' then ([], c :: cs)
    else ((c :: (takeNonQuote cs).1), (takeNonQuote cs).2)

/-- The literal the `operationId` regex anchors on. -/
def opIdMarker : List Char := "\"operationId\":".data

/-- The first match of `/"operationId":\s*"([^"]+)"/`: scan positions
left to right; at each, require the marker, optional whitespace, an
opening quote, a non-empty run of non-quote characters and a closing
quote. -/
def findOpId : List Char → Option String
  | [] => none
  | c :: cs =>
    if leadsWith opIdMarker (c :: cs) then
      match dropWS ((c :: cs).drop opIdMarker.length) with
      | q :: rest =>
        if q == '"' then
          if (takeNonQuote rest).1.isEmpty then findOpId cs
          else
            match (takeNonQuote rest).2 with
            | r :: _ =>
              if r == '"' then some ⟨(takeNonQuote rest).1⟩ else findOpId cs
            | [] => findOpId cs
        else findOpId cs
      | [] => findOpId cs
    else findOpId cs

/-- Split at `-` and `_` (JS `split(/[-_]/)`), keeping empty pieces. -/
def splitDUAux (acc : List Char) : List Char → List String
  | [] => [⟨acc.reverse⟩]
  | c :: cs =>
    if c == '-' || c == '_' then ⟨acc.reverse⟩ :: splitDUAux [] cs
    else splitDUAux (c :: acc) cs

/-- The source's camel-case split of an `operationId`: a dash before each
ASCII capital, lowercase everything, split at dashes and underscores,
keep pieces longer than 2. -/
def camelSegments (opId : String) : List String :=
  let dashed := opId.data.flatMap (fun c => if c.isUpper then ['-', c] else [c])
  (splitDUAux [] (dashed.map Char.toLower)).filter (fun s => s.length > 2)

/-- The detail-derived identifier variants of one change: quote-delimited
path-like substrings of the stringified details (longer than 3 and
containing a slash), plus the synthesized operationId path. -/
def detailVariants (c : Change) : List String :=
  match detailsString c with
  | none => []
  | some ds =>
    let pathLike := (scanPathLike ds.data).filter
      (fun p => p.length > 3 && strIncludes p "/")
    let opIdPart :=
      match findOpId ds.data with
      | none => []
      | some opId =>
        let segs := camelSegments opId
        if segs.length > 0 then ["/" ++ String.intercalate "/" segs] else []
    pathLike ++ opIdPart

/-- All candidate identifiers of one change record. -/
def endpointsOfChange (c : Change) : List String :=
  pathVariants (changePath c) ++ detailVariants c

/-- The regex `/^\/[a-z]$/`. -/
def singleLowerPath (e : String) : Bool :=
  match e.data with
  | [c1, c2] => c1 == '/' && 'a' ≤ c2 && c2 ≤ 'z'
  | _ => false

/-- The final exclusion filter of `extractApiEndpoints`. -/
def keepEndpoint (e : String) : Bool :=
  e.length > 3 && !(singleLowerPath e) &&
    e ≠ "/api" && e ≠ "/v1" && e ≠ "/v2"

/-- Embedding of `extractApiEndpoints`: the `Set`-accumulated candidates
in insertion order, then the exclusion filter. -/
def extractApiEndpoints (changes : List Change) : List String :=
  (dedupFirst (changes.flatMap endpointsOfChange)).filter keepEndpoint

/-- C7: every identifier returned by the extractor has length strictly
greater than 3, differs from `/api`, `/v1` and `/v2`, and does not match
the single-lowercase-letter path regex. -/
theorem extract_exclusion_filter (changes : List Change) (e : String)
    (he : e ∈ extractApiEndpoints changes) :
    3 < e.length ∧ singleLowerPath e = false ∧
    e ≠ "/api" ∧ e ≠ "/v1" ∧ e ≠ "/v2" := by
  unfold extractApiEndpoints at he
  rw [List.mem_filter] at he
  have hk := he.2
  unfold keepEndpoint at hk
  simp only [Bool.and_eq_true, Bool.not_eq_true', decide_eq_true_eq] at hk
  obtain ⟨⟨⟨⟨h1, h2⟩, h3⟩, h4⟩, h5⟩ := hk
  exact ⟨h1, h2, h3, h4, h5⟩

/-- Witness for C7 at a concrete change list. -/
theorem extract_exclusion_filter_witness :
    "/users/list" ∈ extractApiEndpoints [Change.new_endpoint "/users/list"] ∧
    (3 < ("/users/list" : String).length ∧
      singleLowerPath "/users/list" = false ∧
      ("/users/list" : String) ≠ "/api" ∧
      ("/users/list" : String) ≠ "/v1" ∧
      ("/users/list" : String) ≠ "/v2") :=
  ⟨by decide, extract_exclusion_filter [Change.new_endpoint "/users/list"]
    "/users/list" (by decide)⟩

/-! Embedding of `readTestFiles` and its truncation policy. -/

/-- A document as the budgeter sees it: path, `fs.statSync` size (the
model assumes the stat succeeds; the source's catch maps a failure to a
0-comparator) and content (`none` when `readFileSync` throws). -/
structure RFile where
  path : String
  size : Nat
  content : Option String
deriving DecidableEq

/-- A "declaration-like" line: trimmed, it starts with `import `,
`const ` or `require(`. -/
def isDeclLine (line : String) : Bool :=
  strStarts (trimStr line) "import " || strStarts (trimStr line) "const " ||
    strStarts (trimStr line) "require("

/-- The source's `importLines`: the first 10 declaration-like lines. -/
def declLines (content : String) : List String :=
  ((splitCh '\n' content).filter isDeclLine).take 10

/-- The source's `codeLines`: every non-declaration line. -/
def codeLinesOf (content : String) : List String :=
  (splitCh '\n' content).filter (fun l => !(isDeclLine l))

/-- `importLines.join('\n').length`. -/
def declCharLen (content : String) : Nat :=
  (String.intercalate "\n" (declLines content)).length

/-- The source's `maxCodeLines`:
`Math.floor((maxTokensPerFile − importLines.join('\n').length) / 50)`
with `maxTokensPerFile = 1000`; JS floor division of a possibly negative
numerator is `Int.fdiv`. -/
def lineBudget (content : String) : Int :=
  ((1000 : Int) - (declCharLen content : Int)).fdiv 50

/-- JS `arr.slice(0, end)` with a possibly negative `end`: a
non-negative end keeps the first `min(end, length)` elements, while a
negative end is length-relative and keeps all but the last `|end|`
elements (clamped at the front, so `[]` when `|end| ≥ length`). -/
def jsSliceTo {α : Type} (l : List α) (e : Int) : List α :=
  if e < 0 then l.take ((l.length : Int) + e).toNat
  else l.take e.toNat

/-- The truncated rendering of an over-budget document: up to 10
declaration lines, two newlines, `codeLines.slice(0, maxCodeLines)` —
length-relative from the end when the computed budget is negative — two
newlines and the truncation marker. -/
def truncateContent (content : String) : String :=
  String.intercalate "\n" (declLines content) ++ "\n\n" ++
    String.intercalate "\n"
      (jsSliceTo (codeLinesOf content) (lineBudget content)) ++
    "\n\n// ...(truncated)"

/-- `Math.ceil(s.length / 3.5)`, i.e. the ceiling of `2·length / 7`. -/
def estimateTokens (s : String) : Nat :=
  (2 * s.length + 6) / 7

/-- Embedding of `detectTestFramework`. -/
def detectTestFramework (content : String) : String :=
  if strIncludes content "describe(" && strIncludes content "it(" then
    "Jest/Mocha"
  else if strIncludes content "test(" then "Jest"
  else if strIncludes content "@Test" then "JUnit"
  else if strIncludes content "def test_" then "pytest"
  else "Unknown"

/-- The per-document block pushed onto `fileContents` (the
repository-relative path is modelled by the handle itself; no claim
depends on the path rendering). -/
def renderFile (f : RFile) (content truncated : String) : String :=
  "\n=== " ++ basename f.path ++ " ===\nPath: " ++ f.path ++
    "\nFramework: " ++ detectTestFramework content ++ "\n" ++ truncated ++ "\n"

/-- The rendered block of one readable file together with its token
estimate (the estimate is taken on the possibly-truncated content). -/
def processFile (f : RFile) (content : String) : String × Nat :=
  let truncated :=
    if content.length > 1000 then truncateContent content else content
  (renderFile f content truncated, estimateTokens truncated)

/-- The source's size-ascending re-sort (JS `sort` is stable). -/
def sortBySize (files : List RFile) : List RFile :=
  List.insertionSort (fun a b : RFile => a.size ≤ b.size) files

/-- The accumulation loop of `readTestFiles`: before each file the
accumulated estimate is checked against the 8000-token budget (breaking
when already reached), unreadable files are skipped, and each included
file adds its estimate *after* inclusion. -/
def readLoop : List RFile → Nat → List (String × Nat)
  | [], _ => []
  | f :: rest, total =>
    if total ≥ 8000 then []
    else
      match f.content with
      | none => readLoop rest total
      | some content =>
        processFile f content ::
          readLoop rest (total + (processFile f content).2)

/-- The included blocks with their estimates, in processing order. -/
def readTestFilesEntries (files : List RFile) : List (String × Nat) :=
  readLoop (sortBySize files) 0

/-- Embedding of `readTestFiles`: the joined blocks, or the no-files
message. -/
def readTestFiles (files : List RFile) : String :=
  if (readTestFilesEntries files).isEmpty then
    "No test files found in the test repository. Please create new test files following standard testing patterns."
  else
    String.intercalate "\n" ((readTestFilesEntries files).map Prod.fst)

/-- Before each included entry, the accumulated estimate (starting total
included) is strictly below the budget. -/
theorem readLoop_prefix_lt (files : List RFile) :
    ∀ (total k : Nat), k < (readLoop files total).length →
      total + (((readLoop files total).take k).map Prod.snd).sum < 8000 := by
  induction files with
  | nil =>
    intro total k hk
    simp [readLoop] at hk
  | cons f rest ih =>
    intro total k hk
    by_cases h8 : total ≥ 8000
    · rw [readLoop, if_pos h8] at hk
      simp at hk
    · cases hc : f.content with
      | none =>
        have hred : readLoop (f :: rest) total = readLoop rest total := by
          rw [readLoop, if_neg h8, hc]
        rw [hred] at hk ⊢
        exact ih total k hk
      | some content =>
        have hred : readLoop (f :: rest) total =
            processFile f content ::
              readLoop rest (total + (processFile f content).2) := by
          rw [readLoop, if_neg h8, hc]
        rw [hred] at hk ⊢
        cases k with
        | zero =>
          simp only [List.take_zero, List.map_nil, List.sum_nil, Nat.add_zero]
          omega
        | succ j =>
          rw [List.length_cons] at hk
          rw [List.take_succ_cons, List.map_cons, List.sum_cons]
          have := ih (total + (processFile f content).2) j
            (Nat.lt_of_succ_lt_succ hk)
          omega

instance : IsTotal RFile (fun a b => a.size ≤ b.size) :=
  ⟨fun a b => Nat.le_total a.size b.size⟩

instance : IsTrans RFile (fun a b => a.size ≤ b.size) :=
  ⟨fun _ _ _ hab hbc => Nat.le_trans hab hbc⟩

/-- C8 amended: the budgeter processes the documents as a size-ascending
stable re-sort of its input, and stops before a document only once the
accumulated estimate has already reached the budget — so every proper
prefix of the included estimates sums to strictly below 8000, while the
full sum may exceed it by the last document's estimate. -/
theorem readTestFiles_order_and_budget (files : List RFile) :
    List.Sorted (fun a b : RFile => a.size ≤ b.size) (sortBySize files) ∧
    (sortBySize files).Perm files ∧
    ∀ k, k < (readTestFilesEntries files).length →
      (((readTestFilesEntries files).take k).map Prod.snd).sum < 8000 := by
  refine ⟨List.sorted_insertionSort _ _, List.perm_insertionSort _ _, ?_⟩
  intro k hk
  simp only [readTestFilesEntries] at hk ⊢
  have := readLoop_prefix_lt (sortBySize files) 0 k hk
  omega

/-- A 1000-character single-line document at the per-file threshold. -/
def budgetFile : RFile := ⟨"t.js", 1000, some ⟨List.replicate 1000 'a'⟩⟩

/-- 28 copies: each estimates to `ceil(1000/3.5) = 286` tokens. -/
def budgetFiles : List RFile := List.replicate 28 budgetFile

set_option maxRecDepth 100000 in
/-- C8 counterexample: after 27 files the total is `27·286 = 7722 <
8000`, so the 28th is still included and the accumulated estimate ends at
`8008 > 8000` — the total token budget is exceeded. -/
theorem readTestFiles_total_exceeds_budget :
    ((readTestFilesEntries budgetFiles).map Prod.snd).sum = 8008 ∧
    ¬ ((readTestFilesEntries budgetFiles).map Prod.snd).sum ≤ 8000 := by
  exact ⟨by decide, by decide⟩

set_option maxRecDepth 100000 in
/-- Witness for the amended C8 at a concrete one-document corpus. -/
theorem readTestFiles_order_and_budget_witness :
    List.Sorted (fun a b : RFile => a.size ≤ b.size) (sortBySize [budgetFile]) ∧
    (((readTestFilesEntries [budgetFile]).take 0).map Prod.snd).sum < 8000 :=
  ⟨(readTestFiles_order_and_budget [budgetFile]).1,
   (readTestFiles_order_and_budget [budgetFile]).2.2 0 (by decide)⟩

/-- C9 amended: the truncated rendering is the first at most 10
declaration lines, then `codeLines.slice(0, maxCodeLines)` — for a
non-negative computed budget the first `min(budget, available)`
non-declaration lines, exactly the budget only when enough lines exist;
for a negative budget the slice end is length-relative, keeping
`available + budget` lines (all but the last `|budget|`, empty when
`|budget| ≥ available`), not zero lines — then the marker. -/
theorem truncate_structure (content : String) (h : 1000 < content.length) :
    truncateContent content =
      String.intercalate "\n" (declLines content) ++ "\n\n" ++
        String.intercalate "\n"
          (jsSliceTo (codeLinesOf content) (lineBudget content)) ++
        "\n\n// ...(truncated)" ∧
    (declLines content).length ≤ 10 ∧
    (∀ l ∈ jsSliceTo (codeLinesOf content) (lineBudget content),
      isDeclLine l = false) ∧
    (0 ≤ lineBudget content →
      (jsSliceTo (codeLinesOf content) (lineBudget content)).length =
        min (lineBudget content).toNat (codeLinesOf content).length) ∧
    (lineBudget content < 0 →
      (jsSliceTo (codeLinesOf content) (lineBudget content)).length =
        (((codeLinesOf content).length : Int) + lineBudget content).toNat) := by
  refine ⟨rfl, ?_, ?_, ?_, ?_⟩
  · unfold declLines
    rw [List.length_take]
    exact Nat.min_le_left _ _
  · intro l hl
    unfold jsSliceTo at hl
    have hl2 : l ∈ codeLinesOf content := by
      split at hl
      · exact List.mem_of_mem_take hl
      · exact List.mem_of_mem_take hl
    unfold codeLinesOf at hl2
    rw [List.mem_filter] at hl2
    have hb := hl2.2
    rwa [Bool.not_eq_true'] at hb
  · intro hpos
    unfold jsSliceTo
    rw [if_neg (by omega), List.length_take]
  · intro hneg
    unfold jsSliceTo
    rw [if_pos hneg, List.length_take]
    omega

/-- A single 1001-character line, exceeding the per-document budget. -/
def longDoc : String := ⟨List.replicate 1001 'a'⟩

/-- A 110-character declaration line. -/
def longConstLine : String := "const " ++ ⟨List.replicate 104 'a'⟩

/-- An over-budget document whose 10 declaration lines join to 1109
characters, driving the computed line budget to `floor(-109/50) = -3`,
followed by 5 two-character code lines. -/
def negBudgetDoc : String :=
  String.intercalate "\n"
    (List.replicate 10 longConstLine ++ List.replicate 5 "zz")

set_option maxRecDepth 100000 in
/-- C9 counterexample: for `longDoc` the computed line budget is
`floor(1000/50) = 20`, but only 1 non-declaration line exists, so the
rendering contains 1 line rather than exactly 20; and for `negBudgetDoc`
the computed budget is `-3`, yet `slice(0, -3)` keeps the first 2 of the
5 non-declaration lines rather than the zero lines the claim's
"negative computed budget yields zero lines" requires. -/
theorem truncate_not_exactly_budget_lines :
    (1000 < longDoc.length ∧
     lineBudget longDoc = 20 ∧
     (jsSliceTo (codeLinesOf longDoc) (lineBudget longDoc)).length = 1 ∧
     truncateContent longDoc = "\n\n" ++ longDoc ++ "\n\n// ...(truncated)") ∧
    (1000 < negBudgetDoc.length ∧
     lineBudget negBudgetDoc = -3 ∧
     (codeLinesOf negBudgetDoc).length = 5 ∧
     (jsSliceTo (codeLinesOf negBudgetDoc) (lineBudget negBudgetDoc)).length
       = 2) := by
  exact ⟨⟨by decide, by decide, by decide, by decide⟩,
    ⟨by decide, by decide, by decide, by decide⟩⟩

set_option maxRecDepth 100000 in
/-- Witness for the amended C9 at `longDoc` (non-negative budget) and
`negBudgetDoc` (negative budget). -/
theorem truncate_structure_witness :
    ((jsSliceTo (codeLinesOf longDoc) (lineBudget longDoc)).length =
      min (lineBudget longDoc).toNat (codeLinesOf longDoc).length) ∧
    ((jsSliceTo (codeLinesOf negBudgetDoc) (lineBudget negBudgetDoc)).length =
      (((codeLinesOf negBudgetDoc).length : Int) +
        lineBudget negBudgetDoc).toNat) :=
  ⟨(truncate_structure longDoc (by decide)).2.2.2.1 (by decide),
   (truncate_structure negBudgetDoc (by decide)).2.2.2.2 (by decide)⟩
